import Mathlib

/-!
Verification of the uqgrades scraping and caching core.

The development shallowly embeds the relevant TypeScript sources:

  * src/src/lib/cache-redis.ts     (cache-key derivation, parsing, eviction,
                                    failure memoization)
  * src/src/app/api/scrape/route.ts (request-level cache / failure-memo flow)
  * src/src/app/layout.tsx          (third document in the file: the UQ
                                    course-profile scraper, `fetchCourseAssessment`)
  * src/src/lib/state.ts            (second document in the file: the QUT
                                    unit-outline scraper, `fetchQUTCourseAssessment`)

Strings are modelled as `List Char` (`Str`), JavaScript numbers that can be
`NaN` as `Option ℚ` (with `none` playing the role of `NaN`), and the regular
expressions used by the code are implemented as executable character-list
matchers restricted to ASCII (the scraped pages and all keywords involved are
ASCII).  Fallible pipeline stages return `Except`/`Option` values.
-/

namespace UqGrades

/-- Strings are modelled as lists of characters so that the splitting and
normalisation done by the cache layer can be reasoned about by induction. -/
abbrev Str := List Char

/-- Literal fragments used by the embedded code (bound as definitions so that
string data always appears in `:=` position). -/
def scrapeHeadLit : Str := "scrape:".data

def deliveryHeadLit : Str := "delivery:".data

def limitMsgLit : Str := "reached its limit".data

/-- The whitespace class of the JavaScript regexes (ASCII part of `\s`). -/
def isWsChar (c : Char) : Bool :=
  c = ' ' || c = '\t' || c = '\n' || c = '\r' || c = '\x0b' || c = '\x0c'

/-- ASCII lower-casing, modelling `String.prototype.toLowerCase` on the ASCII
texts the scraper handles. -/
def toLowerStr (s : Str) : Str := s.map Char.toLower

/-- Model of `String.prototype.trim`. -/
def trimStr (s : Str) : Str :=
  ((s.dropWhile isWsChar).reverse.dropWhile isWsChar).reverse

/-- Does `pat` occur at the head of `s`?  (Both already in the intended case.) -/
def hasHead (pat s : Str) : Bool := pat.isPrefixOf s

/-- Model of `String.prototype.includes pat` (case-sensitive containment). -/
def containsStr (s pat : Str) : Bool :=
  match s with
  | [] => pat.isEmpty
  | _ :: t => hasHead pat s || containsStr t pat

/-- Case-insensitive containment: the pattern is given lower-case. -/
def containsCI (s pat : Str) : Bool := containsStr (toLowerStr s) pat

/-- Model of `String.prototype.indexOf pat` (as `Option`, `none` for `-1`). -/
def indexOfStr (s pat : Str) : Option Nat :=
  match s with
  | [] => if pat.isEmpty then some 0 else none
  | _ :: t =>
    if hasHead pat s then some 0
    else (indexOfStr t pat).map (· + 1)

/-- Split a string on whitespace runs, dropping empty pieces (the uses in the
scraper always filter short words afterwards, so leading empties are inert). -/
def splitWsStr (s : Str) : List Str :=
  match s with
  | [] => []
  | c :: t =>
    if isWsChar c then splitWsStr t
    else
      match splitWsStr t with
      | [] => [[c]]
      | w :: ws =>
        match t with
        | [] => [[c]]
        | d :: _ => if isWsChar d then [c] :: w :: ws else (c :: w) :: ws

/-- Join a list of strings with single spaces (model of `Array.join(" ")`). -/
def joinSp (parts : List Str) : Str :=
  match parts with
  | [] => []
  | [p] => p
  | p :: rest => p ++ ' ' :: joinSp rest

/-! ### Decimal rendering and JavaScript-style numeric parsing -/

/-- Digit character for a value below ten. -/
def digitCh (n : Nat) : Char := Char.ofNat (48 + n % 10)

/-- Fuel-driven decimal digit emitter (structural recursion so that concrete
keys evaluate inside the kernel). -/
def natCharsAux : Nat → Nat → Str
  | 0, _ => []
  | fuel + 1, n =>
    if n < 10 then [digitCh n]
    else natCharsAux fuel (n / 10) ++ [digitCh (n % 10)]

/-- Decimal rendering of a natural number, modelling template interpolation of
a non-negative integer (`` `${year}` ``). -/
def natChars (n : Nat) : Str := natCharsAux (n + 1) n

/-- Decimal rendering of an integer. -/
def intChars (i : Int) : Str :=
  if i < 0 then '-' :: natChars i.natAbs else natChars i.natAbs

/-- Numeric value of a digit string read left to right. -/
def digitsVal (s : Str) : Nat :=
  s.foldl (fun acc c => acc * 10 + (c.toNat - 48)) 0

/-- The leading digit run of a string as a number, `none` when there is no
leading digit. -/
def parseDigitRun (t : Str) : Option Nat :=
  let ds := t.takeWhile Char.isDigit
  if ds.isEmpty then none else some (digitsVal ds)

/-- Model of `parseInt(s, 10)`: skip leading whitespace, optional sign, then a
non-empty run of decimal digits (trailing junk ignored); `none` models `NaN`. -/
def parseIntJS (s : Str) : Option Int :=
  match s.dropWhile isWsChar with
  | [] => none
  | c :: rest =>
    if c = '-' then (parseDigitRun rest).map (fun n => -(n : Int))
    else if c = '+' then (parseDigitRun rest).map (fun n => (n : Int))
    else (parseDigitRun (c :: rest)).map (fun n => (n : Int))

/-- Value of an unsigned decimal literal `digits [ '.' digits ]` where at least
one digit is present overall; mirrors the prefix accepted by `parseFloat`
(exponents and `Infinity` do not occur in the scraped fields and are not
modelled). -/
def decimalVal? (s : Str) : Option ℚ :=
  let intPart := s.takeWhile Char.isDigit
  let rest := s.dropWhile Char.isDigit
  match rest with
  | '.' :: tail =>
    let fracPart := tail.takeWhile Char.isDigit
    if intPart.isEmpty && fracPart.isEmpty then none
    else some ((digitsVal intPart : ℚ) +
      (digitsVal fracPart : ℚ) / ((10 : ℚ) ^ fracPart.length))
  | _ =>
    if intPart.isEmpty then none else some (digitsVal intPart : ℚ)

/-- Model of `parseFloat(s)`: skip leading whitespace, optional sign, then the
longest valid decimal prefix; `none` models `NaN`. -/
def parseFloatJS (s : Str) : Option ℚ :=
  match s.dropWhile isWsChar with
  | [] => none
  | c :: rest =>
    if c = '-' then (decimalVal? rest).map (fun q => -q)
    else if c = '+' then decimalVal? rest
    else decimalVal? (c :: rest)

/-- Is the character matched by the class `[\d.]`? -/
def isDigitOrDot (c : Char) : Bool := c.isDigit || c = '.'

/-- First maximal run of characters satisfying `p` (regex `X+` first match). -/
def firstRun (p : Char → Bool) (s : Str) : Option Str :=
  match s with
  | [] => none
  | c :: t => if p c then some (c :: t.takeWhile p) else firstRun p t

/-- First capture of the regex `([\d.]+)` used for weight extraction. -/
def firstNumDotToken (s : Str) : Option Str := firstRun isDigitOrDot s

/-! ### Cache keys (src/src/lib/cache-redis.ts) -/

/-- `normalizeSemester` from cache-redis.ts: `semester.replace(/\s+/g, "_")`,
collapsing each maximal whitespace run into a single underscore. -/
def normalizeSemester : Str → Str
  | [] => []
  | [c] => if isWsChar c then ['_'] else [c]
  | c :: d :: rest =>
    if isWsChar c then
      if isWsChar d then normalizeSemester (d :: rest)
      else '_' :: normalizeSemester (d :: rest)
    else c :: normalizeSemester (d :: rest)

/-- The inverse substitution applied by `parseScrapeCacheKey`
(`semesterNorm.replace(/_/g, " ")`). -/
def underscoresToSpaces (s : Str) : Str :=
  s.map (fun c => if c = '_' then ' ' else c)

/-- `scrapeCacheKey` from cache-redis.ts (the four-parameter function present
in the snapshot — note it carries no institution segment). -/
def scrapeCacheKey (courseCode : Str) (year : Int) (semester delivery : Str) : Str :=
  scrapeHeadLit ++ courseCode ++ ':' :: intChars year ++
    ':' :: normalizeSemester semester ++ ':' :: delivery

/-- The three-parameter `deliveryCacheKey` of the snapshot of cache-redis.ts
(no institution segment); the university-aware delivery route calls a
four-parameter overload, modelled below as `deliveryCacheKeyInst`. -/
def deliveryCacheKey (courseCode : Str) (year : Int) (semester : Str) : Str :=
  deliveryHeadLit ++ courseCode ++ ':' :: intChars year ++
    ':' :: normalizeSemester semester

/-- Modelled from the spec: the four-parameter `deliveryCacheKey` overload
that the university-aware delivery route calls with a trailing institution
argument (`deliveryCacheKey(courseCode, year, semesterType, universityParam)`,
scripts/backfill-scrape-cache.ts line 494) is absent from the snapshot of
cache-redis.ts, which holds only the three-parameter version above; per the
spec (and the `delivery:qut:*` scan of `clearQUTCache`) delivery-mode lookups
use `delivery:{institution}:{COURSECODE}:{year}:{semesterToken}`. -/
def deliveryCacheKeyInst (courseCode : Str) (year : Int) (semester institution : Str) : Str :=
  deliveryHeadLit ++ institution ++ ':' :: courseCode ++ ':' :: intChars year ++
    ':' :: normalizeSemester semester

/-- Modelled from the spec: the five-parameter `scrapeCacheKey` overload that
src/src/app/api/scrape/route.ts calls with a trailing institution argument is
absent from the snapshot of cache-redis.ts (only the four-parameter version
above is there); per the spec the full-selector key is
`scrape:{institution}:{COURSECODE}:{year}:{semesterToken}:{delivery}`. -/
def scrapeCacheKeyInst (courseCode : Str) (year : Int) (semester delivery institution : Str) : Str :=
  scrapeHeadLit ++ institution ++ ':' :: courseCode ++ ':' :: intChars year ++
    ':' :: normalizeSemester semester ++ ':' :: delivery

/-- The key the scrape route derives (route.ts lines 73-81): the five-argument
`scrapeCacheKey` call when a full selector is present, and the literal
`scrape:{institution}:{COURSECODE}` template otherwise. -/
def routeScrapeCacheKey (institution courseCode : Str)
    (sel : Option (Int × Str × Str)) : Str :=
  match sel with
  | some (year, semester, delivery) =>
    scrapeCacheKeyInst courseCode year semester delivery institution
  | none => scrapeHeadLit ++ institution ++ ':' :: courseCode

/-- Model of `String.prototype.split(":")`. -/
def splitOnColon : Str → List Str
  | [] => [[]]
  | c :: rest =>
    if c = ':' then [] :: splitOnColon rest
    else
      match splitOnColon rest with
      | [] => [[c]]
      | p :: ps => (c :: p) :: ps

/-- Result shape of `parseScrapeCacheKey`. -/
structure ParsedScrapeKey where
  courseCode : Str
  year : Option Int := none
  semester : Option Str := none
  delivery : Option Str := none
deriving DecidableEq, Repr

/-- `parseScrapeCacheKey` from cache-redis.ts. -/
def parseScrapeCacheKey (key : Str) : Option ParsedScrapeKey :=
  if hasHead (scrapeHeadLit) key then
    let parts := splitOnColon key
    if parts.length = 2 then some { courseCode := parts.getD 1 [] }
    else if 5 ≤ parts.length then
      match parseIntJS (parts.getD 2 []) with
      | none => none
      | some year =>
        some { courseCode := parts.getD 1 []
               year := some year
               semester := some (underscoresToSpaces (parts.getD 3 []))
               delivery := some (parts.getD 4 []) }
    else none
  else none

/-- `yearFromDeliveryKey` from cache-redis.ts. -/
def yearFromDeliveryKey (key : Str) : Option Int :=
  if hasHead (deliveryHeadLit) key then
    let parts := splitOnColon key
    if parts.length < 4 then none
    else parseIntJS (parts.getD 2 [])
  else none

/-! ### Redis state, failure memo and the scrape route (cache-redis.ts,
src/src/app/api/scrape/route.ts)

The Upstash client is modelled as a finite key-value store plus the
`failed-scrapes:v1` set; every operation of the route is deterministic given
that state and the outcome of the scraper collaborator. -/

/-- The slice of Redis state the scrape flow touches: the value store and the
`failed-scrapes:v1` set, with `α` the cached value type. -/
structure RedisState (α : Type) where
  entries : List (Str × α)
  failed : List Str
deriving DecidableEq, Repr

/-- `getCached` on the modelled store (first binding wins, as a later
`client.set` is modelled by prepending). -/
def getCachedKey {α} (st : RedisState α) (key : Str) : Option α :=
  (st.entries.find? (fun e => e.1 = key)).map (·.2)

/-- `addFailedScrape`: `SADD failed-scrapes:v1 key`. -/
def addFailedScrape {α} (st : RedisState α) (key : Str) : RedisState α :=
  if st.failed.contains key then st else { st with failed := key :: st.failed }

/-- `isFailedScrape`: `SISMEMBER failed-scrapes:v1 key`. -/
def isFailedScrape {α} (st : RedisState α) (key : Str) : Bool :=
  st.failed.contains key

/-- The responses the scrape route can produce for a derived key (cache hit,
fresh scrape, the distinct memoized-failure 503, or an error echo). -/
inductive ScrapeResponse (α : Type) where
  | okCached (v : α)
  | okFresh (v : α)
  | limited
  | errorResp (msg : Str)
deriving DecidableEq, Repr

/-- The scrape route handler after key derivation (route.ts lines 85-137),
as a function of the store state and of the outcome the scraper collaborator
would produce.  The returned `Bool` records whether the scraper (and hence the
document fetch) was invoked at all. -/
def routeGetStep {α} (st : RedisState α) (key : Str) (outcome : Except Str α) :
    ScrapeResponse α × Bool × RedisState α :=
  match getCachedKey st key with
  | some v => (.okCached v, false, st)
  | none =>
    if isFailedScrape st key then (.limited, false, st)
    else
      match outcome with
      | .ok d => (.okFresh d, true, { st with entries := (key, d) :: st.entries })
      | .error m =>
        (.errorResp m, true,
          if containsStr m (limitMsgLit) then addFailedScrape st key else st)

/-! ### Eviction by academic year (cache-redis.ts lines 487-575) -/

/-- `BATCH_SIZE` from cache-redis.ts. -/
def BATCH_SIZE : Nat := 100

/-- Does the eviction pass delete this scrape key?  (`parsed?.year != null &&
parsed.year < cutoffYear`.) -/
def scrapeKeyIsOld (cutoffYear : Int) (key : Str) : Bool :=
  match parseScrapeCacheKey key with
  | some p => match p.year with
    | some y => y < cutoffYear
    | none => false
  | none => false

/-- Does the eviction pass delete this delivery key? -/
def deliveryKeyIsOld (cutoffYear : Int) (key : Str) : Bool :=
  match yearFromDeliveryKey key with
  | some y => y < cutoffYear
  | none => false

/-- The batching loop of `evictScrapeAndDeliveryCacheOlderThanYear`: collect
matching keys, flushing a `DEL` batch whenever it reaches `BATCH_SIZE`, with a
final flush of the remainder.  Returns the argument lists of the `DEL` calls. -/
def delBatchLoop (pred : Str → Bool) (keys : List Str) (cur : List Str) :
    List (List Str) :=
  match keys with
  | [] => if cur.isEmpty then [] else [cur]
  | k :: ks =>
    if pred k then
      let cur' := cur ++ [k]
      if BATCH_SIZE ≤ cur'.length then cur' :: delBatchLoop pred ks []
      else delBatchLoop pred ks cur'
    else delBatchLoop pred ks cur

/-- All keys (filter on `scrape:*` / `delivery:*` patterns as in
`listScrapeCacheKeys` / `client.keys("delivery:*")`). -/
def keysWithHead (pat : Str) (keys : List Str) : List Str :=
  keys.filter (fun k => hasHead pat k)

/-- `evictScrapeAndDeliveryCacheOlderThanYear`: the `DEL` batches issued for
scrape keys, then for delivery keys. -/
def evictScrapeAndDeliveryCacheOlderThanYear (keys : List Str) (cutoffYear : Int) :
    List (List Str) × List (List Str) :=
  (delBatchLoop (scrapeKeyIsOld cutoffYear) (keysWithHead (scrapeHeadLit) keys) [],
   delBatchLoop (deliveryKeyIsOld cutoffYear) (keysWithHead (deliveryHeadLit) keys) [])

/-- The key set remaining after the eviction pass: a key survives unless some
`DEL` batch contained it. -/
def evictRemainingKeys (keys : List Str) (cutoffYear : Int) : List Str :=
  let batches := evictScrapeAndDeliveryCacheOlderThanYear keys cutoffYear
  keys.filter (fun k => !((batches.1 ++ batches.2).flatten.contains k))

/-- `trimFailedScrapesOlderThanYear`: members of `failed-scrapes:v1` removed by
the trim pass. -/
def trimFailedScrapesRemoved (members : List Str) (cutoffYear : Int) : List Str :=
  members.filter (scrapeKeyIsOld cutoffYear)

/-- The failure-memo set after `trimFailedScrapesOlderThanYear` (an `SREM` of
the collected members). -/
def trimFailedScrapesRemaining (members : List Str) (cutoffYear : Int) : List Str :=
  members.filter (fun k => !scrapeKeyIsOld cutoffYear k)

/-- The semester segment of a well-formed key contains no run of two
underscores; the round-trip through `parseScrapeCacheKey` is exact precisely
on such segments. -/
def noDoubleUnderscore : Str → Bool
  | [] => true
  | [_] => true
  | a :: b :: r => !(a = '_' && b = '_') && noDoubleUnderscore (b :: r)

/-- The literal `scrape` namespace word. -/
def scrapeWordLit : Str := "scrape".data

/-- The literal `delivery` namespace word. -/
def deliveryWordLit : Str := "delivery".data

/-- Combined eviction predicate: the key is a scrape or delivery key whose
embedded year parses and is strictly below the cutoff. -/
def shouldEvict (cutoffYear : Int) (k : Str) : Bool :=
  (hasHead scrapeHeadLit k && scrapeKeyIsOld cutoffYear k) ||
    (hasHead deliveryHeadLit k && deliveryKeyIsOld cutoffYear k)

/-! ### Keyword literals of the scrapers -/

def passLit : Str := "pass".data

def failLit : Str := "fail".data

def thresholdLit : Str := "threshold".data

def isWordLit : Str := "is".data

def hurdleLit : Str := "hurdle".data

def warningLit : Str := "warning".data

def alertLit : Str := "alert".data

def assessmentLit : Str := "assessment".data

def itemLit : Str := "item".data

def weightLit : Str := "weight".data

def weightingLit : Str := "weighting".data

def dueLit : Str := "due".data

def dateLit : Str := "date".data

def assessmentTaskLit : Str := "assessment task".data

def pctLit : Str := "%".data

def hurdleReqLit : Str := "hurdle requirements".data

def detailAnchorLit : Str := "assessment-detail-".data

def submissionGuideLit : Str := "Submission guidelines".data

def deferralLit : Str := "Deferral or extension".data

def lateSubmissionLit : Str := "Late submission".data

def taskDescriptionLit : Str := "Task description".data

def learningOutcomesLit : Str := "Learning outcomes".data

def examDetailsLit : Str := "Exam details".data

def ellipsisLit : Str := "...".data

def noTableMsgLit : Str :=
  "Could not locate assessment table for this course. The course profile may not have assessment information available, or the page structure may have changed.".data

def noItemsMsgLit : Str := "Assessment table found but no rows could be parsed.".data

def assessColonLit : Str := "assessment:".data

def strongWeightLit : Str := "<strong>weight:</strong>".data

def weightColonLit : Str := "weight:".data

def weekLit : Str := "week".data

def weekCapLit : Str := "Week ".data

def examinationLit : Str := "examination".data

def periodLit : Str := "period".data

def examPeriodLit : Str := "Exam Period".data

def mustPassLit : Str := "must pass".data

def mustAchieveLit : Str := "must achieve".data

def gtLit : Str := ">".data

def closeH4Lit : Str := "</h4>".data

def dueColonLit : Str := "due:".data

def qutNoSemesterMsgLit : Str :=
  "Semester, year, and delivery mode are required for QUT units.".data

def qutErrPart1Lit : Str := "Could not find assessment information for ".data

def qutErrPart2Lit : Str := ". The unit outline may not be available for ".data

/-! ### Character-list matchers for the scraper regexes -/

/-- Consume a literal at the head of an (already lower-cased) string. -/
def dropLit (lit s : Str) : Option Str :=
  if lit.isPrefixOf s then some (s.drop lit.length) else none

/-- Consume a literal (given lower-case) at the head of a mixed-case string. -/
def dropLitCI (lit s : Str) : Option Str :=
  if lit.length ≤ s.length && toLowerStr (s.take lit.length) == lit then
    some (s.drop lit.length)
  else none

/-- Skip `\s*`. -/
def dropWs (s : Str) : Str := s.dropWhile isWsChar

/-- Skip `\s+` (at least one whitespace character required). -/
def dropWs1 (s : Str) : Option Str :=
  match s with
  | [] => none
  | c :: t => if isWsChar c then some (dropWs t) else none

/-- Does some suffix of the string satisfy `p`?  (Scanning positions left to
right, as a regex engine does.) -/
def anySuffix (p : Str → Bool) : Str → Bool
  | [] => p []
  | c :: t => p (c :: t) || anySuffix p t

/-- First position (left to right) where the matcher `f` succeeds. -/
def findSuffix? {γ : Type} (f : Str → Option γ) : Str → Option γ
  | [] => f []
  | c :: t => (f (c :: t)) <|> findSuffix? f t

/-- The UQ pass/fail test `/pass\s*\/\s*fail|pass\/fail|pass-fail/i` at one
position of a lower-cased string. -/
def passFailAtUQ (s : Str) : Bool :=
  match dropLit passLit s with
  | none => false
  | some r1 =>
    (match dropWs r1 with
     | '/' :: r2 => (dropLit failLit (dropWs r2)).isSome
     | _ => false) ||
    (match r1 with
     | '-' :: r2 => (dropLit failLit r2).isSome
     | _ => false)

/-- `/pass\s*\/\s*fail|pass\/fail|pass-fail/i.test(text)`. -/
def containsPassFailUQ (s : Str) : Bool := anySuffix passFailAtUQ (toLowerStr s)

/-- The QUT pass/fail test `/pass\s*\/?\s*fail/i` at one position. -/
def passFailAtQUT (s : Str) : Bool :=
  match dropLit passLit s with
  | none => false
  | some r1 =>
    let r2 := dropWs r1
    let r3 := match r2 with
      | '/' :: t => dropWs t
      | _ => r2
    (dropLit failLit r3).isSome

/-- `/pass\s*\/?\s*fail/i.test(text)`. -/
def containsPassFailQUT (s : Str) : Bool := anySuffix passFailAtQUT (toLowerStr s)

/-- A `\d+(?:\.\d+)?` token at the head of the string, with the remainder. -/
def numTok (s : Str) : Option (ℚ × Str) :=
  let ds := s.takeWhile Char.isDigit
  if ds.isEmpty then none
  else
    let r := s.drop ds.length
    match r with
    | '.' :: t =>
      let fs := t.takeWhile Char.isDigit
      if fs.isEmpty then some ((digitsVal ds : ℚ), r)
      else some ((digitsVal ds : ℚ) + (digitsVal fs : ℚ) / ((10 : ℚ) ^ fs.length),
        t.drop fs.length)
    | _ => some ((digitsVal ds : ℚ), r)

/-- `\s*(\d+(?:\.\d+)?)\s*%` after the threshold keywords. -/
def thresholdNumPct (t : Str) : Option ℚ :=
  match numTok (dropWs t) with
  | none => none
  | some (q, r) =>
    match dropWs r with
    | '%' :: _ => some q
    | _ => none

/-- `threshold(?:\s+is)?(?:\s*:)?\s*(\d+(?:\.\d+)?)\s*%` at one position. -/
def thresholdCore (t : Str) : Option ℚ :=
  match dropLit thresholdLit t with
  | none => none
  | some t1 =>
    let cands1 : List Str :=
      match (dropWs1 t1).bind (dropLit isWordLit) with
      | some u => [u, t1]
      | none => [t1]
    cands1.findSome? (fun t2 =>
      let cands2 : List Str :=
        match dropWs t2 with
        | ':' :: u => [u, t2]
        | _ => [t2]
      cands2.findSome? thresholdNumPct)

/-- First alternative of the hurdle-threshold regex:
`(?:pass\s+)?threshold(?:\s+is)?(?:\s*:)?\s*(\d+(?:\.\d+)?)\s*%`. -/
def thresholdAtA (s : Str) : Option ℚ :=
  match (dropLit passLit s).bind dropWs1 with
  | some u =>
    match thresholdCore u with
    | some q => some q
    | none => thresholdCore s
  | none => thresholdCore s

/-- Second alternative: `(\d+(?:\.\d+)?)\s*%\s*(?:pass\s+)?threshold`. -/
def thresholdAtB (s : Str) : Option ℚ :=
  match numTok s with
  | none => none
  | some (q, r) =>
    match dropWs r with
    | '%' :: r2 =>
      let base := dropWs r2
      let ok :=
        match (dropLit passLit base).bind dropWs1 with
        | some u => (dropLit thresholdLit u).isSome || (dropLit thresholdLit base).isSome
        | none => (dropLit thresholdLit base).isSome
      if ok then some q else none
    | _ => none

/-- The first capture of the full hurdle-threshold regex on a lower-cased
cell text. -/
def firstThresholdCapture (lc : Str) : Option ℚ :=
  findSuffix? (fun s => (thresholdAtA s) <|> thresholdAtB s) lc

/-- The first capture of `/(\d+(?:\.\d+)?)\s*%/`. -/
def percentCapture (lc : Str) : Option ℚ :=
  findSuffix? (fun s =>
    match numTok s with
    | none => none
    | some (q, r) =>
      match dropWs r with
      | '%' :: _ => some q
      | _ => none) lc

/-- The separator part of the date-shape regex
`/(\d{1,2}\/\d{1,2}|\d{1,2}\s+\w+|\d{1,2}-\d{1,2})/i` after its digits. -/
def dateShapedSep (r : Str) : Bool :=
  match r with
  | '/' :: d :: _ => d.isDigit
  | '-' :: d :: _ => d.isDigit
  | _ =>
    match dropWs1 r with
    | some (c :: _) => c.isAlphanum || c = '_'
    | _ => false

/-- The date-shape regex at one position. -/
def dateShapedAt (s : Str) : Bool :=
  match s with
  | [] => false
  | c1 :: rest =>
    c1.isDigit &&
      ((match rest with
        | c2 :: r2 => c2.isDigit && dateShapedSep r2
        | [] => false) ||
       dateShapedSep rest)

/-- Does a cell text look date-shaped? -/
def dateShaped (s : Str) : Bool := anySuffix dateShapedAt (toLowerStr s)

/-! ### UQ scraper: DOM model of the assessment table
(src/src/app/layout.tsx, third document: `fetchCourseAssessment`) -/

/-- A `th`/`td` cell: its text content and the concatenated text of its
nested `a` elements. -/
structure TCell where
  isTh : Bool
  text : Str
  linkText : Str
deriving DecidableEq, Repr

/-- An `img`/`svg`/icon-classed element inside a row, carrying the attributes
the hurdle-icon check reads. -/
structure IconEl where
  alt : Option Str
  title : Option Str
  cls : Str
deriving DecidableEq, Repr

/-- A table row: its cells in document order, its inner HTML (used by the
`/hurdle|warning|alert/i` pre-check) and its icon elements. -/
structure UqRow where
  cells : List TCell
  rowHtml : Str
  icons : List IconEl
deriving DecidableEq, Repr

/-- A table: rows inside `thead` and rows inside `tbody`. -/
structure UqTable where
  theadRows : List UqRow
  tbodyRows : List UqRow
deriving DecidableEq, Repr

def emptyTCell : TCell := { isTh := false, text := [], linkText := [] }

/-- `$(row).find("td")`. -/
def UqRow.tds (r : UqRow) : List TCell := r.cells.filter (fun c => !c.isTh)

/-- The texts of the row's `th` cells. -/
def UqRow.thTexts (r : UqRow) : List Str :=
  (r.cells.filter (fun c => c.isTh)).map (fun c => c.text)

/-- `table.find("tr")` (and also the row list seen by `"tbody tr, tr"`). -/
def UqTable.allRows (t : UqTable) : List UqRow := t.theadRows ++ t.tbodyRows

/-- `$(el).find("th").text().toLowerCase()`: the concatenated text of every
`th` in the table, lower-cased. -/
def tableHeaderText (t : UqTable) : Str :=
  toLowerStr ((t.allRows.map UqRow.thTexts).flatten).flatten

/-- The header-keyword predicate of the fallback table search
(`hasAssessment && (hasWeight || hasDue)`, layout.tsx lines 535-539). -/
def headerKeywordMatch (t : UqTable) : Bool :=
  let ht := tableHeaderText t
  let hasAssessment := containsStr ht assessmentLit || containsStr ht itemLit
  let hasWeight := containsStr ht weightLit || containsStr ht pctLit
  let hasDue := containsStr ht dueLit || containsStr ht dateLit
  hasAssessment && (hasWeight || hasDue)

/-- `c.replace("%", "")` (first occurrence only, string argument). -/
def removeFirstPct : Str → Str
  | [] => []
  | c :: t => if c = '%' then t else c :: removeFirstPct t

/-- `c.includes("%") && !isNaN(parseFloat(c.replace("%", "")))`. -/
def cellPctNumeric (c : Str) : Bool :=
  containsStr c pctLit && (parseFloatJS (removeFirstPct c)).isSome

/-- Does a row contain a percentage-valued cell? -/
def rowHasPctCell (r : UqRow) : Bool :=
  ((r.tds).map (fun c => trimStr c.text)).any cellPctNumeric

/-- The content-shape predicate of the fallback table search: a percentage
cell among the first three rows (`find("tbody tr, tr").slice(0, 3)`). -/
def percentShapeMatch (t : UqTable) : Bool :=
  let rows := t.allRows.take 3
  rows.any rowHasPctCell && decide (0 < rows.length)

/-- The fallback `$assessment("table").each(...)` loop: for each table, in
document order, test the header keywords, then (for the same table) the
percentage shape; first success exits the loop. -/
def fallbackSearchLoop : List UqTable → Nat → Option Nat
  | [], _ => none
  | t :: ts, i =>
    if headerKeywordMatch t then some i
    else if percentShapeMatch t then some i
    else fallbackSearchLoop ts (i + 1)

/-- Fallback assessment-table search over all tables of the document. -/
def fallbackAssessmentTable (tables : List UqTable) : Option Nat :=
  fallbackSearchLoop tables 0

/-- Table location after the heading-adjacency stage: when that stage found a
table its index is used; otherwise the fallback loop runs and assigns
`assessmentTable`, but the guard at layout.tsx line 565 re-tests the stale
`assessmentTableRef` binding captured at line 522 (still null), so the
fallback result is discarded and the not-located error is thrown. -/
def locateAssessmentTable (stage1 : Option Nat) (tables : List UqTable) :
    Except Str Nat :=
  match stage1 with
  | some i => Except.ok i
  | none =>
    let _fb := fallbackAssessmentTable tables
    Except.error noTableMsgLit

/-- Written from the spec text of C9 (for comparison with the code): the
fallback selects the first table whose concatenated header text contains
assessment/item AND (weight OR the percent sign); the content-shape stage is
consulted only when no table in the document qualifies by that predicate. -/
def specFallbackTable (tables : List UqTable) : Option Nat :=
  match tables.findIdx? (fun t =>
    let ht := tableHeaderText t
    (containsStr ht assessmentLit || containsStr ht itemLit) &&
      (containsStr ht weightLit || containsStr ht pctLit)) with
  | some i => some i
  | none => tables.findIdx? percentShapeMatch

/-! ### UQ scraper: column-role resolution (layout.tsx lines 578-606) -/

/-- The header cells used for role resolution: first `thead` row, else the
first row of the table. -/
def headerCellTexts (t : UqTable) : List Str :=
  match t.theadRows with
  | r :: _ => r.cells.map (fun c => c.text)
  | [] =>
    match t.allRows with
    | r :: _ => r.cells.map (fun c => c.text)
    | [] => []

/-- The resolved column indices. -/
structure ColumnRoles where
  nameCol : Option Nat := none
  weightCol : Option Nat := none
  dueCol : Option Nat := none
deriving DecidableEq, Repr

/-- The name-role keyword test on a lower-cased trimmed header text
(`includes("assessment task") || includes("assessment")`). -/
def headerNameKw (cellText : Str) : Bool :=
  let ht := trimStr (toLowerStr cellText)
  containsStr ht assessmentTaskLit || containsStr ht assessmentLit

/-- The weight-role keyword test (`weight`/`weighting`). -/
def headerWeightKw (cellText : Str) : Bool :=
  let ht := trimStr (toLowerStr cellText)
  containsStr ht weightLit || containsStr ht weightingLit

/-- The due-role keyword test (`due`/`date`). -/
def headerDueKw (cellText : Str) : Bool :=
  let ht := trimStr (toLowerStr cellText)
  containsStr ht dueLit || containsStr ht dateLit

/-- One step of the `headerCells.each(...)` loop: an if/else-if chain that
assigns this index to the first role whose keywords match the cell, with no
check whether the role already had an index. -/
def resolveRolesStep (r : ColumnRoles) (i : Nat) (cellText : Str) : ColumnRoles :=
  if headerNameKw cellText then { r with nameCol := some i }
  else if headerWeightKw cellText then { r with weightCol := some i }
  else if headerDueKw cellText then { r with dueCol := some i }
  else r

/-- The index of the last enumerated cell satisfying `p`, starting from a
prior value (the characterization of the mutating loop above). -/
def lastMatchIdxFrom (p : Str → Bool) : List (Nat × Str) → Option Nat → Option Nat
  | [], acc => acc
  | q :: rest, acc => lastMatchIdxFrom p rest (if p q.2 then some q.1 else acc)

/-- Column-role resolution over the header cells in row order. -/
def resolveColumnRoles (headerTexts : List Str) : ColumnRoles :=
  headerTexts.enum.foldl (fun r p => resolveRolesStep r p.1 p.2) {}

/-! ### UQ scraper: row parsing (layout.tsx lines 613-772) -/

/-- JavaScript weight value: the pass/fail marker or a number (with `none`
standing for `NaN`). -/
inductive JsWeight where
  | pf
  | num (v : Option ℚ)
deriving DecidableEq, Repr

/-- One parsed assessment item.  `isHurdle = false` models the absent field
(the code pushes `isHurdle || undefined`). -/
structure AssessmentItem where
  name : Str
  weight : JsWeight
  dueDate : Option Str
  isHurdle : Bool
  hurdleThreshold : Option ℚ
  hurdleRequirements : Option Str
deriving DecidableEq, Repr

/-- The trimmed, non-empty td texts of a row (`textCells`). -/
def rowTextCells (r : UqRow) : List Str :=
  ((r.tds).map (fun c => trimStr c.text)).filter (fun t => !t.isEmpty)

/-- `cells.eq(0).text().trim()`. -/
def firstCellText (tds : List TCell) : Str :=
  match tds with
  | c :: _ => trimStr c.text
  | [] => []

/-- Name extraction: the resolved name column (preferring inner link text)
when present and in range, else the first cell. -/
def extractName (roles : ColumnRoles) (r : UqRow) : Str :=
  let tds := r.tds
  match roles.nameCol with
  | some i =>
    if i < tds.length then
      let cell := tds.getD i emptyTCell
      let nm := trimStr cell.text
      let lt := trimStr cell.linkText
      if lt.isEmpty then nm else lt
    else firstCellText tds
  | none => firstCellText tds

/-- The heuristic weight search over `textCells` (no weight column). -/
def weightHeuristic (textCells : List Str) : JsWeight :=
  if (textCells.find? containsPassFailUQ).isSome then .pf
  else
    match (textCells.find? (fun t => containsStr t pctLit)) <|>
        (textCells.find? (fun t => (parseFloatJS t).isSome)) with
    | some wc =>
      match firstNumDotToken wc with
      | some tok => .num (parseFloatJS tok)
      | none => .num (some 0)
    | none => .num (some 0)

/-- Weight extraction: the resolved weight column when present and in range,
else the heuristic; `weight` is initialised to `0`. -/
def extractWeight (roles : ColumnRoles) (r : UqRow) : JsWeight :=
  let tds := r.tds
  match roles.weightCol with
  | some i =>
    if i < tds.length then
      let wtext := trimStr (tds.getD i emptyTCell).text
      if containsPassFailUQ wtext then .pf
      else
        match firstNumDotToken wtext with
        | some tok => .num (parseFloatJS tok)
        | none => .num (some 0)
    else weightHeuristic (rowTextCells r)
  | none => weightHeuristic (rowTextCells r)

/-- Due-date extraction: resolved due column (`text().trim() || null`), else
the first date-shaped text cell. -/
def extractDue (roles : ColumnRoles) (r : UqRow) : Option Str :=
  let tds := r.tds
  match roles.dueCol with
  | some i =>
    if i < tds.length then
      let t := trimStr (tds.getD i emptyTCell).text
      if t.isEmpty then none else some t
    else (rowTextCells r).find? dateShaped
  | none => (rowTextCells r).find? dateShaped

/-- `alt || title || ""` (JavaScript truthiness on the attribute values). -/
def truthyOr (a : Option Str) (fb : Str) : Str :=
  match a with
  | some s => if s.isEmpty then fb else s
  | none => fb

/-- The icon-based hurdle check: only entered when the row HTML matches
`/hurdle|warning|alert/i`; an icon matches when its `alt`/`title` or class
contains `hurdle`. -/
def rowIsHurdleIcon (r : UqRow) : Bool :=
  let rh := toLowerStr r.rowHtml
  if containsStr rh hurdleLit || containsStr rh warningLit || containsStr rh alertLit then
    r.icons.any (fun ic =>
      let alt := truthyOr ic.alt (truthyOr ic.title [])
      containsCI alt hurdleLit || containsCI ic.cls hurdleLit)
  else false

/-- The hurdle-threshold loop over `textCells` (only run when the hurdle flag
is set): the two-alternative threshold regex first, then a bare percentage in
a cell that also mentions hurdle/threshold; values outside [0,100] are
rejected and the scan continues. -/
def extractHurdleThreshold : List Str → Option ℚ
  | [] => none
  | c :: rest =>
    let lc := toLowerStr c
    let fallback :=
      match percentCapture lc with
      | some p2 =>
        if (containsStr lc hurdleLit || containsStr lc thresholdLit) &&
            decide (0 ≤ p2) && decide (p2 ≤ 100) then some p2
        else extractHurdleThreshold rest
      | none => extractHurdleThreshold rest
    match firstThresholdCapture lc with
    | some p => if decide (0 ≤ p) && decide (p ≤ 100) then some p else fallback
    | none => fallback

/-- Row parsing (`rows.filter(...).each(...)` body): returns `none` for a
skipped row.  The hurdle-requirements field is `null` at this stage. -/
def parseUqRow (roles : ColumnRoles) (r : UqRow) : Option AssessmentItem :=
  let textCells := rowTextCells r
  let name := extractName roles r
  if textCells.isEmpty || name.isEmpty then none
  else
    let weight := extractWeight roles r
    let dueCell := extractDue roles r
    let isHurdle := textCells.any (fun t => containsCI t hurdleLit) || rowIsHurdleIcon r
    let hThr := if isHurdle then extractHurdleThreshold textCells else none
    if name.isEmpty || weight = JsWeight.num (some 0) then none
    else some { name := name, weight := weight, dueDate := dueCell,
                isHurdle := isHurdle, hurdleThreshold := hThr,
                hurdleRequirements := none }

/-- All items parsed from the located table: `tbody tr` rows with more than
one `td`, each through the row parser. -/
def parseUqRows (roles : ColumnRoles) (t : UqTable) : List AssessmentItem :=
  (t.tbodyRows.filter (fun r => 1 < r.tds.length)).filterMap (parseUqRow roles)

/-! ### UQ scraper: per-item hurdle-requirements mining
(layout.tsx lines 776-973) -/

/-- A sibling element of the assessment-detail region: anchors (with an id),
headings `h2`-`h5` (an `h3` may carry an id) and text-bearing content. -/
inductive DetailEl where
  | anchor (id : Str)
  | h2El (text : Str)
  | h3El (id : Option Str) (text : Str)
  | h4El (text : Str)
  | h5El (text : Str)
  | contentEl (text : Str)
deriving DecidableEq, Repr

/-- `$(el).attr("id")`. -/
def DetailEl.elId : DetailEl → Option Str
  | .anchor i => some i
  | .h3El i _ => i
  | _ => none

def DetailEl.isH3 : DetailEl → Bool
  | .h3El _ _ => true
  | _ => false

def DetailEl.isH4 : DetailEl → Bool
  | .h4El _ => true
  | _ => false

/-- Headings `h2`-`h5` (the tags skipped or stopped at while collecting). -/
def DetailEl.isHeading : DetailEl → Bool
  | .h2El _ => true
  | .h3El _ _ => true
  | .h4El _ => true
  | .h5El _ => true
  | _ => false

/-- `$(el).text()` (anchors have no text in this model). -/
def DetailEl.textOf : DetailEl → Str
  | .anchor _ => []
  | .h2El t => t
  | .h3El _ t => t
  | .h4El t => t
  | .h5El t => t
  | .contentEl t => t

/-- The id `assessment-detail-{index}`. -/
def detailIdFor (idx : Nat) : Str := detailAnchorLit ++ natChars idx

/-- `nextAll("h3").first()`: the sibling list after the first following h3. -/
def findAfterH3 : List DetailEl → Option (List DetailEl)
  | [] => none
  | e :: rest => if e.isH3 then some rest else findAfterH3 rest

/-- Resolve `#assessment-detail-{i}` to the h3 heading of the section: the
element itself when it is an h3, the next h3 when it is an anchor, nothing
otherwise (triggering the fuzzy name fallback).  Returns the sibling list
after that h3. -/
def findH3ById (detailId : Str) : List DetailEl → Option (List DetailEl)
  | [] => none
  | e :: rest =>
    if e.elId == some detailId then
      match e with
      | .anchor _ => findAfterH3 rest
      | .h3El _ _ => some rest
      | _ => none
    else findH3ById detailId rest

/-- The significant words of an item name (length above two). -/
def significantWords (name : Str) : List Str :=
  (splitWsStr (toLowerStr name)).filter (fun w => 2 < w.length)

/-- Fuzzy heading match: the first h3 whose text contains at least two of the
item-name words.  Returns the sibling list after it. -/
def fuzzyH3 (words : List Str) : List DetailEl → Option (List DetailEl)
  | [] => none
  | e :: rest =>
    match e with
    | .h3El _ t =>
      if 2 ≤ (words.filter (fun w => containsStr (trimStr (toLowerStr t)) w)).length then
        some rest
      else fuzzyH3 words rest
    | _ => fuzzyH3 words rest

/-- Locate the detail section h3 for item `idx` named `name`: by id, then by
fuzzy name match. -/
def findItemH3Suffix (els : List DetailEl) (idx : Nat) (name : Str) :
    Option (List DetailEl) :=
  match findH3ById (detailIdFor idx) els with
  | some suf => some suf
  | none => fuzzyH3 (significantWords name) els

/-- Search the siblings after the section h3 for the `Hurdle requirements`
h4, stopping at a foreign `assessment-detail-` id or at the next h3.
Returns the sibling list after the h4. -/
def findHurdleH4 (detailId : Str) : List DetailEl → Option (List DetailEl)
  | [] => none
  | e :: rest =>
    if (match e.elId with
        | some i => hasHead detailAnchorLit i && !(i == detailId)
        | none => false) then none
    else if e.isH3 then none
    else
      match e with
      | .h4El t =>
        if containsStr (trimStr (toLowerStr t)) hurdleReqLit then some rest
        else findHurdleH4 detailId rest
      | _ => findHurdleH4 detailId rest

/-- Collect the requirement text parts after the hurdle h4: up to the next h4
(skipping headings) when one exists, else up to the next heading of any
level. -/
def collectHurdleParts (after : List DetailEl) : List Str :=
  if after.any DetailEl.isH4 then
    ((after.takeWhile (fun e => !e.isH4)).filter (fun e => !e.isHeading)).filterMap
      (fun e => let t := trimStr e.textOf; if t.isEmpty then none else some t)
  else
    (after.takeWhile (fun e => !e.isHeading)).filterMap
      (fun e => let t := trimStr e.textOf; if t.isEmpty then none else some t)

/-- `.replace(/\s+/g, " ")`: collapse whitespace runs to single spaces. -/
def collapseWs : Str → Str
  | [] => []
  | [c] => if isWsChar c then [' '] else [c]
  | c :: d :: rest =>
    if isWsChar c then
      if isWsChar d then collapseWs (d :: rest)
      else ' ' :: collapseWs (d :: rest)
    else c :: collapseWs (d :: rest)

/-- The stop phrases stripped from mined hurdle text. -/
def stopPhrases : List Str :=
  [submissionGuideLit, deferralLit, lateSubmissionLit, taskDescriptionLit,
   learningOutcomesLit, examDetailsLit]

/-- Truncate at the first stop phrase found at a positive index (an index of
zero does not truncate, matching `if (index > 0)`). -/
def applyStopPhrases (s : Str) : List Str → Str
  | [] => s
  | p :: rest =>
    match indexOfStr s p with
    | some i => if 0 < i then trimStr (s.take i) else applyStopPhrases s rest
    | none => applyStopPhrases s rest

/-- The 1000-character cap with ellipsis. -/
def capHurdleText (s : Str) : Str :=
  if 1000 < s.length then s.take 1000 ++ ellipsisLit else s

/-- Mine the hurdle-requirements text for one item.  The parent-HTML text-node
fallback of the code is not reachable in this structured model (no loose text
nodes), so empty collections yield `none`. -/
def mineHurdleReq (els : List DetailEl) (idx : Nat) (name : Str) : Option Str :=
  match findItemH3Suffix els idx name with
  | none => none
  | some suf =>
    match findHurdleH4 (detailIdFor idx) suf with
    | none => none
    | some after =>
      let parts := collectHurdleParts after
      if parts.isEmpty then none
      else
        let t0 := collapseWs (trimStr (joinSp parts))
        some (capHurdleText (applyStopPhrases t0 stopPhrases))

/-- The `items.forEach((item, index) => ...)` mining pass: sets
`hurdleRequirements` from the document for every item, with no reference to
the item's hurdle flag. -/
def mineAllItems (els : List DetailEl) (items : List AssessmentItem) :
    List AssessmentItem :=
  items.enum.map (fun p =>
    { p.2 with hurdleRequirements := mineHurdleReq els p.1 p.2.name })

/-- The item-production phase of `fetchCourseAssessment` on a located table:
resolve column roles, parse the body rows, run the mining pass, and fail with
the no-items error when nothing parsed (layout.tsx lines 974-978). -/
def uqExtractItems (t : UqTable) (els : List DetailEl) :
    Except Str (List AssessmentItem) :=
  let roles := resolveColumnRoles (headerCellTexts t)
  let items := parseUqRows roles t
  let mined := mineAllItems els items
  if mined.isEmpty then Except.error noItemsMsgLit
  else Except.ok mined

/-! ### QUT scraper (src/src/lib/state.ts, second document:
`fetchQUTCourseAssessment`) -/

/-- The selector passed to the scrapers. -/
structure SemesterSelection where
  year : Int
  semester : Str
  delivery : Str
deriving DecidableEq, Repr

/-- One `h4[id^="assessment-task-"]` section: the heading text and the HTML
between it and the next heading. -/
structure QutTask where
  heading : Str
  content : Str
deriving DecidableEq, Repr

/-- A parsed QUT item (the QUT scraper never sets threshold or
requirements). -/
structure QutItem where
  name : Str
  weight : JsWeight
  dueDate : Option Str
  isHurdle : Bool
deriving DecidableEq, Repr

/-- `headingText.replace(/^Assessment:\s*/i, "")`. -/
def stripAssessmentHead (t : Str) : Str :=
  if hasHead assessColonLit (toLowerStr t) then
    dropWs (t.drop assessColonLit.length)
  else t

/-- First occurrence of a literal followed by `\s*` and a number capture. -/
def findLitNum (lit : Str) (lc : Str) : Option ℚ :=
  findSuffix? (fun s =>
    match dropLit lit s with
    | some r => (numTok (dropWs r)).map (fun p => p.1)
    | none => none) lc

/-- The weight capture: `/<strong>Weight:<\/strong>\s*(\d+(?:\.\d+)?)/i`,
then `/Weight:\s*(\d+(?:\.\d+)?)/i`. -/
def qutWeightCapture (content : Str) : Option ℚ :=
  let lc := toLowerStr content
  match findLitNum strongWeightLit lc with
  | some q => some q
  | none => findLitNum weightColonLit lc

/-- The `/Week\s+(\d+)/i` capture. -/
def qutWeekCapture (content : Str) : Option Str :=
  findSuffix? (fun s =>
    match (dropLit weekLit s).bind dropWs1 with
    | some r =>
      let ds := r.takeWhile Char.isDigit
      if ds.isEmpty then none else some ds
    | none => none) (toLowerStr content)

/-- `/examination\s+period/i.test(content)`. -/
def hasExamPeriod (content : Str) : Bool :=
  anySuffix (fun s =>
    match (dropLit examinationLit s).bind dropWs1 with
    | some r => (dropLit periodLit r).isSome
    | none => false) (toLowerStr content)

/-- The due-date extraction of the QUT main path. -/
def qutDue (content : Str) : Option Str :=
  match qutWeekCapture content with
  | some ds => some (weekCapLit ++ ds)
  | none => if hasExamPeriod content then some examPeriodLit else none

/-- One iteration of the `h4Elements.each(...)` body, before duplicate
filtering: `none` when the row is not pushed. -/
def qutParseTask (t : QutTask) : Option QutItem :=
  let name := trimStr (stripAssessmentHead (trimStr t.heading))
  if name.isEmpty then none
  else
    let w0 : JsWeight :=
      match qutWeightCapture t.content with
      | some q => .num (some q)
      | none => .num (some 0)
    let weight := if containsPassFailQUT t.content then JsWeight.pf else w0
    let due := qutDue t.content
    let isH := containsCI t.content hurdleLit || containsCI t.content mustPassLit ||
      containsCI t.content mustAchieveLit
    match weight with
    | .pf => some { name := name, weight := .pf, dueDate := due, isHurdle := isH }
    | .num (some q) =>
      if 0 < q then
        some { name := name, weight := .num (some q), dueDate := due, isHurdle := isH }
      else none
    | .num none => none

/-- The main extraction loop with its duplicate check (same name and same
weight as an already collected item). -/
def qutMainLoop : List QutTask → List QutItem → List QutItem
  | [], acc => acc
  | t :: ts, acc =>
    match qutParseTask t with
    | none => qutMainLoop ts acc
    | some it =>
      if acc.any (fun e => e.name == it.name && e.weight == it.weight) then
        qutMainLoop ts acc
      else qutMainLoop ts (acc ++ [it])

def qutMainItems (tasks : List QutTask) : List QutItem := qutMainLoop tasks []

/-- The raw section string the fallback regexes run on: the tail of the split
`<h4 ... id="assessment-task...` marker up to the next section. -/
def qutSectionStr (t : QutTask) : Str := gtLit ++ t.heading ++ closeH4Lit ++ t.content

/-- `[^<]+` capture (empty capture fails). -/
def capNonLt (s : Str) : Option Str :=
  let t := s.takeWhile (fun c => !(c = '<'))
  if t.isEmpty then none else some t

/-- `([^<]+?)<\/h4>`: the text run before the closing h4 tag. -/
def capBeforeH4 (r : Str) : Option Str :=
  let t := r.takeWhile (fun c => !(c = '<'))
  if t.isEmpty then none
  else if (dropLitCI closeH4Lit (r.drop t.length)).isSome then some t
  else none

/-- The fallback name capture: `/>Assessment:\s*([^<]+)/i`, then
`/>([^<]+?)<\/h4>/i`. -/
def qutFallbackName (sec : Str) : Option Str :=
  match findSuffix? (fun s =>
    match s with
    | '>' :: r =>
      match dropLitCI assessColonLit r with
      | some r2 => capNonLt (dropWs r2)
      | none => none
    | _ => none) sec with
  | some nm => some nm
  | none =>
    findSuffix? (fun s =>
      match s with
      | '>' :: r => capBeforeH4 r
      | _ => none) sec

/-- `/Due\s*\([^)]*\):\s*([^<]+)/i` at one position. -/
def qutFbDueParen (s : Str) : Option Str :=
  match dropLitCI dueLit s with
  | none => none
  | some r =>
    match dropWs r with
    | '(' :: r2 =>
      let inside := r2.takeWhile (fun c => !(c = ')'))
      match r2.drop inside.length with
      | ')' :: ':' :: r3 => capNonLt (dropWs r3)
      | _ => none
    | _ => none

/-- `/Due:\s*([^<]+)/i` at one position. -/
def qutFbDuePlain (s : Str) : Option Str :=
  match dropLitCI dueColonLit s with
  | some r => capNonLt (dropWs r)
  | none => none

/-- The fallback due capture, trimmed. -/
def qutFallbackDue (sec : Str) : Option Str :=
  match findSuffix? qutFbDueParen sec with
  | some t => some (trimStr t)
  | none => (findSuffix? qutFbDuePlain sec).map trimStr

/-- One section of the fallback parsing path (pushed only with a strictly
positive numeric weight; no hurdle detection, no duplicate check). -/
def qutFallbackItemOf (t : QutTask) : Option QutItem :=
  let sec := qutSectionStr t
  match qutFallbackName sec with
  | none => none
  | some nmRaw =>
    let name := trimStr nmRaw
    let w : ℚ :=
      match qutWeightCapture sec with
      | some q => q
      | none => 0
    if !name.isEmpty && decide (0 < w) then
      some { name := name, weight := .num (some w), dueDate := qutFallbackDue sec,
             isHurdle := false }
    else none

def qutFallbackItems (tasks : List QutTask) : List QutItem :=
  tasks.filterMap qutFallbackItemOf

/-- The no-items error message of the QUT scraper (with its interpolations). -/
def qutNoItemsMsg (unitCode : Str) (sel : SemesterSelection) : Str :=
  qutErrPart1Lit ++ unitCode ++ qutErrPart2Lit ++ sel.semester ++ ' ' ::
    intChars sel.year ++ ['.']

/-- `fetchQUTCourseAssessment` as a function of the selector and the unit
outline document (its list of assessment-task sections).  The boolean records
whether the document fetch was reached: with no selector the function throws
before building the URL or fetching. -/
def fetchQUTCourseAssessment (unitCode : Str) (sel : Option SemesterSelection)
    (doc : List QutTask) : Except Str (List QutItem) × Bool :=
  match sel with
  | none => (Except.error qutNoSemesterMsgLit, false)
  | some s =>
    let items := qutMainItems doc
    let items2 := if items.isEmpty then qutFallbackItems doc else items
    if items2.isEmpty then (Except.error (qutNoItemsMsg unitCode s), true)
    else (Except.ok items2, true)

/-! ### Concrete literals used in scenarios and counterexamples -/

def uqLit : Str := "uq".data

def mathCourseLit : Str := "MATH1051".data

def semOneLit : Str := "Semester 1".data

def internalLit : Str := "internal".data

def cexSemLit : Str := "a_ b".data

def cexSemParsedLit : Str := "a  b".data

/-- A `td` cell with plain text and no link. -/
def mkTd (text : Str) : TCell := { isTh := false, text := text, linkText := [] }

/-- A `th` cell with plain text. -/
def mkThCell (text : Str) : TCell := { isTh := true, text := text, linkText := [] }

/-- A body row of plain text cells, with no icons. -/
def plainRow (cells : List Str) : UqRow :=
  { cells := cells.map mkTd, rowHtml := [], icons := [] }

/-- A header row of `th` cells. -/
def plainHeaderRow (cells : List Str) : UqRow :=
  { cells := cells.map mkThCell, rowHtml := [], icons := [] }

/-- A table with one `thead` header row and plain body rows. -/
def plainTable (hdr : List Str) (rows : List (List Str)) : UqTable :=
  { theadRows := [plainHeaderRow hdr], tbodyRows := rows.map plainRow }

def hdrTaskLit : Str := "Assessment task".data

def hdrWeightLit : Str := "Weight".data

def hdrDueDateLit : Str := "Due date".data

def cexExamLit : Str := "Exam".data

def cexWeight150Lit : Str := "150%".data

def cexLaterLit : Str := "later".data

def essayLit : Str := "Essay".data

def weight50Lit : Str := "50%".data

/-- A located table whose single row carries a 150% weight. -/
def overweightTable : UqTable :=
  plainTable [hdrTaskLit, hdrWeightLit, hdrDueDateLit]
    [[cexExamLit, cexWeight150Lit, cexLaterLit]]

/-- The item the UQ scraper returns for `overweightTable`. -/
def overweightItem : AssessmentItem :=
  { name := cexExamLit, weight := .num (some 150), dueDate := some cexLaterLit,
    isHurdle := false, hurdleThreshold := none, hurdleRequirements := none }

def hurdleCexDetailIdLit : Str := "assessment-detail-0".data

def hurdleCexH3Lit : Str := "Essay details".data

def hurdleCexH4Lit : Str := "Hurdle requirements".data

def hurdleCexBodyLit : Str := "You must pass the final section.".data

def finalExamLit : Str := "Final Exam".data

def weight60Lit : Str := "60%".data

def thresholdTextLit : Str := "Pass threshold is 80% to pass this hurdle".data

/-- A located table with one non-hurdle row. -/
def hurdleCexTable : UqTable :=
  plainTable [hdrTaskLit, hdrWeightLit] [[essayLit, weight50Lit]]

/-- A detail region holding a `Hurdle requirements` subsection for item 0. -/
def hurdleCexDetails : List DetailEl :=
  [DetailEl.anchor hurdleCexDetailIdLit,
   DetailEl.h3El none hurdleCexH3Lit,
   DetailEl.h4El hurdleCexH4Lit,
   DetailEl.contentEl hurdleCexBodyLit]

/-- The item the UQ scraper returns for `hurdleCexTable` with
`hurdleCexDetails`: not a hurdle, yet carrying requirements text. -/
def hurdleCexItem : AssessmentItem :=
  { name := essayLit, weight := .num (some 50), dueDate := none,
    isHurdle := false, hurdleThreshold := none,
    hurdleRequirements := some hurdleCexBodyLit }

def cexAssessDueLit : Str := "Assessment due".data

/-- Header cells where a later cell repeats the name keyword. -/
def cexHeaderCells : List Str := [hdrTaskLit, hdrWeightLit, cexAssessDueLit]

def fooLit : Str := "foo".data

def hdrItemLit : Str := "Assessment item".data

def abLit : Str := "ab".data

def cdLit : Str := "cd".data

/-- A table with no keyword headers whose first row holds a percentage cell. -/
def pctOnlyTable : UqTable :=
  { theadRows := [], tbodyRows := [plainRow [fooLit, weight50Lit]] }

/-- A table qualifying by header keywords (`Assessment item` + `Weight`). -/
def keywordHdrTable : UqTable :=
  plainTable [hdrItemLit, hdrWeightLit] [[abLit, cdLit]]

def qutHeadingLit : Str := "Assessment: Problem Solving Task".data

def qutContentLit : Str :=
  "<p>desc</p><div><strong>Weight:</strong> 10</div><div><strong>Due (indicative):</strong> Week 4</div>".data

/-- A QUT assessment-task section. -/
def qutDemoTask : QutTask := { heading := qutHeadingLit, content := qutContentLit }

def qutDemoNameLit : Str := "Problem Solving Task".data

def qutWeek4Lit : Str := "Week 4".data

/-- The item parsed from `qutDemoTask`. -/
def qutDemoItem : QutItem :=
  { name := qutDemoNameLit, weight := .num (some 10), dueDate := some qutWeek4Lit,
    isHurdle := false }

def qutUnitLit : Str := "CAB201".data

/-- A demo QUT selector. -/
def qutDemoSel : SemesterSelection :=
  { year := 2025, semester := semOneLit, delivery := internalLit }

/-- Cache keys for four consecutive academic years of one course, scrape and
delivery kinds (the eviction-boundary scenario of the spec). -/
def demoYearKeys : List Str :=
  [scrapeCacheKey mathCourseLit 2022 semOneLit internalLit,
   scrapeCacheKey mathCourseLit 2023 semOneLit internalLit,
   scrapeCacheKey mathCourseLit 2024 semOneLit internalLit,
   scrapeCacheKey mathCourseLit 2025 semOneLit internalLit,
   deliveryCacheKey mathCourseLit 2022 semOneLit,
   deliveryCacheKey mathCourseLit 2023 semOneLit,
   deliveryCacheKey mathCourseLit 2024 semOneLit,
   deliveryCacheKey mathCourseLit 2025 semOneLit]

/-- Failure-memo members for the same four years. -/
def demoFailedMembers : List Str :=
  [scrapeCacheKey mathCourseLit 2022 semOneLit internalLit,
   scrapeCacheKey mathCourseLit 2023 semOneLit internalLit,
   scrapeCacheKey mathCourseLit 2024 semOneLit internalLit,
   scrapeCacheKey mathCourseLit 2025 semOneLit internalLit]

/-- Decidable equality for `Except` results, so that concrete pipeline runs
can be checked by `decide`. -/
instance {ε α : Type} [DecidableEq ε] [DecidableEq α] : DecidableEq (Except ε α) :=
  fun x y =>
    match x, y with
    | .ok a, .ok b =>
      if h : a = b then isTrue (by rw [h]) else isFalse (by intro hh; cases hh; exact h rfl)
    | .error a, .error b =>
      if h : a = b then isTrue (by rw [h]) else isFalse (by intro hh; cases hh; exact h rfl)
    | .ok _, .error _ => isFalse (by intro hh; cases hh)
    | .error _, .ok _ => isFalse (by intro hh; cases hh)

/-- The table of the hurdle-threshold scenario. -/
def thresholdTable : UqTable :=
  plainTable [hdrTaskLit, hdrWeightLit]
    [[finalExamLit, weight60Lit, thresholdTextLit]]

/-- The item returned for `thresholdTable`. -/
def thresholdItem : AssessmentItem :=
  { name := finalExamLit, weight := .num (some 60), dueDate := none,
    isHurdle := true, hurdleThreshold := some 80, hurdleRequirements := none }

/-- A located table whose body has no rows at all. -/
def emptyRowsTable : UqTable := plainTable [hdrTaskLit, hdrWeightLit] []

/-! ### Basic lemmas about the string model -/

theorem hasHead_append (a b : Str) : hasHead a (a ++ b) = true := by
  simp only [hasHead, List.isPrefixOf_iff_prefix]
  exact List.prefix_append a b

theorem not_ws_of_digit (c : Char) (h : c.isDigit = true) : isWsChar c = false := by
  simp only [Char.isDigit] at h
  simp only [isWsChar, Bool.or_eq_false_iff, decide_eq_false_iff_not]
  refine ⟨⟨⟨⟨⟨?_, ?_⟩, ?_⟩, ?_⟩, ?_⟩, ?_⟩ <;>
    rintro rfl <;> simp_all

theorem splitOnColon_no_colon (a : Str) (h : ':' ∉ a) : splitOnColon a = [a] := by
  induction a with
  | nil => rfl
  | cons c t ih =>
    have hc : c ≠ ':' := fun hh => h (hh ▸ List.mem_cons_self c t)
    have ht : ':' ∉ t := fun hh => h (List.mem_cons_of_mem c hh)
    simp [splitOnColon, hc, ih ht]

theorem splitOnColon_append (a b : Str) (h : ':' ∉ a) :
    splitOnColon (a ++ ':' :: b) = a :: splitOnColon b := by
  induction a with
  | nil => simp [splitOnColon]
  | cons c t ih =>
    have hc : c ≠ ':' := fun hh => h (hh ▸ List.mem_cons_self c t)
    have ht : ':' ∉ t := fun hh => h (List.mem_cons_of_mem c hh)
    have h2 := ih ht
    simp only [List.cons_append, splitOnColon, if_neg hc]
    rw [show t ++ ':' :: b = t.append (':' :: b) from rfl] at h2
    simp only [h2]

theorem digitCh_isDigit (m : Nat) : (digitCh m).isDigit = true := by
  unfold digitCh
  have h : m % 10 < 10 := Nat.mod_lt _ (by omega)
  have : m % 10 = 0 ∨ m % 10 = 1 ∨ m % 10 = 2 ∨ m % 10 = 3 ∨ m % 10 = 4 ∨
      m % 10 = 5 ∨ m % 10 = 6 ∨ m % 10 = 7 ∨ m % 10 = 8 ∨ m % 10 = 9 := by omega
  rcases this with h' | h' | h' | h' | h' | h' | h' | h' | h' | h' <;> rw [h'] <;> decide

theorem digitCh_val (m : Nat) : (digitCh m).toNat - 48 = m % 10 := by
  unfold digitCh
  have h : m % 10 < 10 := Nat.mod_lt _ (by omega)
  have : m % 10 = 0 ∨ m % 10 = 1 ∨ m % 10 = 2 ∨ m % 10 = 3 ∨ m % 10 = 4 ∨
      m % 10 = 5 ∨ m % 10 = 6 ∨ m % 10 = 7 ∨ m % 10 = 8 ∨ m % 10 = 9 := by omega
  rcases this with h' | h' | h' | h' | h' | h' | h' | h' | h' | h' <;> rw [h'] <;> decide

theorem digitsVal_append_one (a : Str) (c : Char) :
    digitsVal (a ++ [c]) = digitsVal a * 10 + (c.toNat - 48) := by
  simp [digitsVal, List.foldl_append]

theorem natCharsAux_spec : ∀ fuel n, n < fuel →
    (∀ c ∈ natCharsAux fuel n, c.isDigit = true) ∧
    digitsVal (natCharsAux fuel n) = n ∧ natCharsAux fuel n ≠ [] := by
  intro fuel
  induction fuel with
  | zero => omega
  | succ f ih =>
    intro n hn
    by_cases h10 : n < 10
    · refine ⟨?_, ?_, ?_⟩ <;> simp [natCharsAux, h10, digitsVal]
      · exact digitCh_isDigit n
      · have := digitCh_val n
        omega
    · have hdiv : n / 10 < n := Nat.div_lt_self (by omega) (by omega)
      have hf : n / 10 < f := by omega
      obtain ⟨ihd, ihv, ihne⟩ := ih (n / 10) hf
      refine ⟨?_, ?_, ?_⟩
      · intro c hc
        simp only [natCharsAux, if_neg h10, List.mem_append, List.mem_singleton] at hc
        rcases hc with hc | hc
        · exact ihd c hc
        · rw [hc]; exact digitCh_isDigit (n % 10)
      · simp only [natCharsAux, if_neg h10]
        rw [digitsVal_append_one, ihv, digitCh_val]
        omega
      · simp [natCharsAux, if_neg h10]

theorem natChars_digits (n : Nat) : ∀ c ∈ natChars n, c.isDigit = true :=
  (natCharsAux_spec (n + 1) n (by omega)).1

theorem natChars_val (n : Nat) : digitsVal (natChars n) = n :=
  (natCharsAux_spec (n + 1) n (by omega)).2.1

theorem natChars_ne_nil (n : Nat) : natChars n ≠ [] :=
  (natCharsAux_spec (n + 1) n (by omega)).2.2

theorem no_colon_natChars (n : Nat) : ':' ∉ natChars n := by
  intro h
  have := natChars_digits n _ h
  simp at this

theorem parseIntJS_natChars (n : Nat) : parseIntJS (natChars n) = some (n : Int) := by
  have hd := natChars_digits n
  obtain ⟨c, rest, hcr⟩ : ∃ c rest, natChars n = c :: rest := by
    cases h : natChars n with
    | nil => exact absurd h (natChars_ne_nil n)
    | cons c rest => exact ⟨c, rest, rfl⟩
  have hcd : c.isDigit = true := hd c (by rw [hcr]; exact List.mem_cons_self c rest)
  have hdw : (natChars n).dropWhile isWsChar = natChars n := by
    rw [hcr, List.dropWhile_cons, not_ws_of_digit c hcd]
    simp
  have htw : (natChars n).takeWhile Char.isDigit = natChars n :=
    List.takeWhile_eq_self_iff.mpr hd
  have hcm : c ≠ '-' := by rintro rfl; simp [Char.isDigit] at hcd
  have hcp : c ≠ '+' := by rintro rfl; simp [Char.isDigit] at hcd
  have hrun : parseDigitRun (c :: rest) = some n := by
    unfold parseDigitRun
    rw [← hcr, htw]
    simp only [List.isEmpty_iff, natChars_ne_nil n, natChars_val n]
    simp
  unfold parseIntJS
  rw [hdw, hcr]
  simp [if_neg hcm, if_neg hcp, hrun]

/-! ### Lemmas about semester-token normalisation -/

theorem normalizeSemester_no_ws (s : Str) :
    ∀ c ∈ normalizeSemester s, isWsChar c = false := by
  induction s using normalizeSemester.induct with
  | case1 => simp [normalizeSemester]
  | case2 c hw =>
    intro x hx
    simp only [normalizeSemester, if_pos hw, List.mem_singleton] at hx
    rw [hx]; decide
  | case3 c hw =>
    intro x hx
    simp only [normalizeSemester, if_neg hw, List.mem_singleton] at hx
    rw [hx]; simpa using hw
  | case4 c d r hwc hwd ih =>
    intro x hx
    simp only [normalizeSemester, if_pos hwc, if_pos hwd] at hx
    exact ih x hx
  | case5 c d r hwc hwd ih =>
    intro x hx
    simp only [normalizeSemester, if_pos hwc, if_neg hwd, List.mem_cons] at hx
    rcases hx with hx | hx
    · rw [hx]; decide
    · exact ih x hx
  | case6 c d r hwc ih =>
    intro x hx
    simp only [normalizeSemester, if_neg hwc, List.mem_cons] at hx
    rcases hx with hx | hx
    · rw [hx]; simpa using hwc
    · exact ih x hx

theorem mem_normalizeSemester (s : Str) :
    ∀ c ∈ normalizeSemester s, c = '_' ∨ c ∈ s := by
  induction s using normalizeSemester.induct with
  | case1 => simp [normalizeSemester]
  | case2 c hw => simp [normalizeSemester, if_pos hw]
  | case3 c hw => simp [normalizeSemester, if_neg hw]
  | case4 c d r hwc hwd ih =>
    intro x hx
    simp only [normalizeSemester, if_pos hwc, if_pos hwd] at hx
    rcases ih x hx with h | h
    · exact Or.inl h
    · exact Or.inr (List.mem_cons_of_mem c h)
  | case5 c d r hwc hwd ih =>
    intro x hx
    simp only [normalizeSemester, if_pos hwc, if_neg hwd, List.mem_cons] at hx
    rcases hx with hx | hx
    · exact Or.inl hx
    · rcases ih x hx with h | h
      · exact Or.inl h
      · exact Or.inr (List.mem_cons_of_mem c h)
  | case6 c d r hwc ih =>
    intro x hx
    simp only [normalizeSemester, if_neg hwc, List.mem_cons] at hx
    rcases hx with hx | hx
    · exact Or.inr (hx ▸ List.mem_cons_self c (d :: r))
    · rcases ih x hx with h | h
      · exact Or.inl h
      · exact Or.inr (List.mem_cons_of_mem c h)

theorem normalize_underscoresToSpaces (t : Str)
    (hws : ∀ c ∈ t, isWsChar c = false)
    (hdu : noDoubleUnderscore t = true) :
    normalizeSemester (underscoresToSpaces t) = t := by
  induction t with
  | nil => rfl
  | cons c rest ih =>
    cases rest with
    | nil =>
      by_cases hc : c = '_'
      · subst hc; rfl
      · have hcw : isWsChar c = false := hws c (List.mem_cons_self _ _)
        simp [underscoresToSpaces, normalizeSemester, hc, hcw]
    | cons d r =>
      have hcw : isWsChar c = false := hws c (List.mem_cons_self _ _)
      have hdww : isWsChar d = false :=
        hws d (List.mem_cons_of_mem _ (List.mem_cons_self _ _))
      have hwr : ∀ x ∈ d :: r, isWsChar x = false := fun x hx =>
        hws x (List.mem_cons_of_mem _ hx)
      have hdur : noDoubleUnderscore (d :: r) = true := by
        simp only [noDoubleUnderscore, Bool.and_eq_true] at hdu
        exact hdu.2
      have ihr := ih hwr hdur
      have hmap : underscoresToSpaces (c :: d :: r) =
          (if c = '_' then ' ' else c) :: underscoresToSpaces (d :: r) := by
        simp [underscoresToSpaces]
      by_cases hc : c = '_'
      · subst hc
        have hdne : d ≠ '_' := by
          intro hd2
          subst hd2
          simp [noDoubleUnderscore] at hdu
        have hdd : underscoresToSpaces (d :: r) = d :: underscoresToSpaces r := by
          simp [underscoresToSpaces, hdne]
        rw [hmap, if_pos rfl, hdd]
        have hsp : isWsChar ' ' = true := by decide
        have hstep : normalizeSemester (' ' :: d :: underscoresToSpaces r) =
            '_' :: normalizeSemester (d :: underscoresToSpaces r) := by
          simp [normalizeSemester, hdww, hsp]
        rw [hstep, ← hdd, ihr]
      · rw [hmap, if_neg hc]
        have hdd : underscoresToSpaces (d :: r) =
            (if d = '_' then ' ' else d) :: underscoresToSpaces r := by
          simp [underscoresToSpaces]
        rw [hdd]
        have hstep : normalizeSemester
              (c :: (if d = '_' then ' ' else d) :: underscoresToSpaces r) =
            c :: normalizeSemester ((if d = '_' then ' ' else d) :: underscoresToSpaces r) := by
          simp [normalizeSemester, hcw]
        rw [hstep, ← hdd, ihr]

/-! ### Decomposition of derived keys into segments -/

theorem intChars_ofNat (y : Nat) : intChars (y : Int) = natChars y := by
  unfold intChars
  rw [if_neg (by omega), Int.natAbs_ofNat]

theorem scrapeCacheKey_decomp (c : Str) (y : Nat) (s d : Str) :
    scrapeCacheKey c (y : Int) s d =
      scrapeWordLit ++ ':' :: (c ++ ':' :: (natChars y ++ ':' ::
        (normalizeSemester s ++ ':' :: d))) := by
  unfold scrapeCacheKey
  rw [intChars_ofNat]
  rw [show scrapeHeadLit = scrapeWordLit ++ [':'] from rfl]
  simp [List.append_assoc]

theorem splitOnColon_scrapeCacheKey (c : Str) (y : Nat) (s d : Str)
    (hc : ':' ∉ c) (hs : ':' ∉ s) (hd : ':' ∉ d) :
    splitOnColon (scrapeCacheKey c (y : Int) s d) =
      [scrapeWordLit, c, natChars y, normalizeSemester s, d] := by
  have hny : ':' ∉ natChars y := no_colon_natChars y
  have ht : ':' ∉ normalizeSemester s := by
    intro hmem
    rcases mem_normalizeSemester s _ hmem with h | h
    · exact absurd h (by decide)
    · exact hs h
  have hw : ':' ∉ scrapeWordLit := by decide
  rw [scrapeCacheKey_decomp, splitOnColon_append _ _ hw, splitOnColon_append _ _ hc,
    splitOnColon_append _ _ hny, splitOnColon_append _ _ ht,
    splitOnColon_no_colon _ hd]

theorem hasHead_scrapeCacheKey (c : Str) (y : Nat) (s d : Str) :
    hasHead scrapeHeadLit (scrapeCacheKey c (y : Int) s d) = true := by
  rw [scrapeCacheKey_decomp]
  rw [show scrapeWordLit ++ ':' :: (c ++ ':' :: (natChars y ++ ':' ::
      (normalizeSemester s ++ ':' :: d))) =
    scrapeHeadLit ++ (c ++ ':' :: (natChars y ++ ':' ::
      (normalizeSemester s ++ ':' :: d))) by simp [scrapeHeadLit, scrapeWordLit]]
  exact hasHead_append _ _

theorem deliveryCacheKey_decomp (c : Str) (y : Nat) (s : Str) :
    deliveryCacheKey c (y : Int) s =
      deliveryWordLit ++ ':' :: (c ++ ':' :: (natChars y ++ ':' ::
        normalizeSemester s)) := by
  unfold deliveryCacheKey
  rw [intChars_ofNat]
  rw [show deliveryHeadLit = deliveryWordLit ++ [':'] from rfl]
  simp [List.append_assoc]

theorem splitOnColon_deliveryCacheKey (c : Str) (y : Nat) (s : Str)
    (hc : ':' ∉ c) (hs : ':' ∉ s) :
    splitOnColon (deliveryCacheKey c (y : Int) s) =
      [deliveryWordLit, c, natChars y, normalizeSemester s] := by
  have hny : ':' ∉ natChars y := no_colon_natChars y
  have ht : ':' ∉ normalizeSemester s := by
    intro hmem
    rcases mem_normalizeSemester s _ hmem with h | h
    · exact absurd h (by decide)
    · exact hs h
  have hw : ':' ∉ deliveryWordLit := by decide
  rw [deliveryCacheKey_decomp, splitOnColon_append _ _ hw, splitOnColon_append _ _ hc,
    splitOnColon_append _ _ hny, splitOnColon_no_colon _ ht]

theorem deliveryCacheKeyInst_decomp (c : Str) (y : Nat) (s inst : Str) :
    deliveryCacheKeyInst c (y : Int) s inst =
      deliveryWordLit ++ ':' :: (inst ++ ':' :: (c ++ ':' :: (natChars y ++ ':' ::
        normalizeSemester s))) := by
  unfold deliveryCacheKeyInst
  rw [intChars_ofNat]
  rw [show deliveryHeadLit = deliveryWordLit ++ [':'] from rfl]
  simp [List.append_assoc]

theorem splitOnColon_deliveryCacheKeyInst (c : Str) (y : Nat) (s inst : Str)
    (hinst : ':' ∉ inst) (hc : ':' ∉ c) (hs : ':' ∉ s) :
    splitOnColon (deliveryCacheKeyInst c (y : Int) s inst) =
      [deliveryWordLit, inst, c, natChars y, normalizeSemester s] := by
  have hny : ':' ∉ natChars y := no_colon_natChars y
  have ht : ':' ∉ normalizeSemester s := by
    intro hmem
    rcases mem_normalizeSemester s _ hmem with h | h
    · exact absurd h (by decide)
    · exact hs h
  have hw : ':' ∉ deliveryWordLit := by decide
  rw [deliveryCacheKeyInst_decomp, splitOnColon_append _ _ hw,
    splitOnColon_append _ _ hinst, splitOnColon_append _ _ hc,
    splitOnColon_append _ _ hny, splitOnColon_no_colon _ ht]

theorem routeScrapeCacheKey_some_decomp (inst c : Str) (y : Nat) (s d : Str) :
    routeScrapeCacheKey inst c (some ((y : Int), s, d)) =
      scrapeWordLit ++ ':' :: (inst ++ ':' :: (c ++ ':' :: (natChars y ++ ':' ::
        (normalizeSemester s ++ ':' :: d)))) := by
  rw [show routeScrapeCacheKey inst c (some ((y : Int), s, d)) =
    scrapeCacheKeyInst c (y : Int) s d inst from rfl]
  unfold scrapeCacheKeyInst
  rw [intChars_ofNat]
  rw [show scrapeHeadLit = scrapeWordLit ++ [':'] from rfl]
  simp [List.append_assoc]

/-! ### Lemmas about the eviction batching loop -/

theorem delBatchLoop_flatten (pred : Str → Bool) :
    ∀ (keys : List Str) (cur : List Str),
      (delBatchLoop pred keys cur).flatten = cur ++ keys.filter pred := by
  intro keys
  induction keys with
  | nil =>
    intro cur
    unfold delBatchLoop
    by_cases h : cur.isEmpty
    · rw [if_pos h]
      simp [List.isEmpty_iff.mp h]
    · rw [if_neg h]
      simp
  | cons k ks ih =>
    intro cur
    unfold delBatchLoop
    by_cases hp : pred k
    · rw [if_pos hp]
      by_cases hb : BATCH_SIZE ≤ (cur ++ [k]).length
      · rw [if_pos hb]
        simp only [List.flatten_cons, ih []]
        simp [List.filter_cons, hp]
      · rw [if_neg hb]
        rw [ih (cur ++ [k])]
        simp [List.filter_cons, hp]
    · rw [if_neg hp]
      rw [ih cur]
      simp [List.filter_cons, hp]

theorem delBatchLoop_batch_bound (pred : Str → Bool) :
    ∀ (keys : List Str) (cur : List Str), cur.length < BATCH_SIZE →
      ∀ b ∈ delBatchLoop pred keys cur, b.length ≤ BATCH_SIZE := by
  intro keys
  induction keys with
  | nil =>
    intro cur hcur b hb
    unfold delBatchLoop at hb
    by_cases h : cur.isEmpty
    · rw [if_pos h] at hb
      simp at hb
    · rw [if_neg h] at hb
      simp only [List.mem_singleton] at hb
      rw [hb]; omega
  | cons k ks ih =>
    intro cur hcur b hb
    unfold delBatchLoop at hb
    by_cases hp : pred k
    · rw [if_pos hp] at hb
      by_cases hcut : BATCH_SIZE ≤ (cur ++ [k]).length
      · rw [if_pos hcut] at hb
        simp only [List.mem_cons] at hb
        rcases hb with hb | hb
        · rw [hb]
          simp only [List.length_append, List.length_singleton]
          omega
        · exact ih [] (by simp [BATCH_SIZE]) b hb
      · rw [if_neg hcut] at hb
        exact ih (cur ++ [k]) (by omega) b hb
    · rw [if_neg hp] at hb
      exact ih cur hcur b hb

theorem contains_iff_mem (l : List Str) (k : Str) : l.contains k = true ↔ k ∈ l := by
  rw [show l.contains k = l.elem k from rfl]
  exact List.elem_iff

theorem filter_and_comm (p q : Str → Bool) (l : List Str) :
    l.filter (fun a => p a && q a) = l.filter (fun a => q a && p a) :=
  List.filter_congr (fun a _ => by rw [Bool.and_comm])

theorem evict_deleted_eq (keys : List Str) (cutoffYear : Int) :
    ((evictScrapeAndDeliveryCacheOlderThanYear keys cutoffYear).1 ++
      (evictScrapeAndDeliveryCacheOlderThanYear keys cutoffYear).2).flatten =
      keys.filter (fun k => hasHead scrapeHeadLit k && scrapeKeyIsOld cutoffYear k) ++
      keys.filter (fun k => hasHead deliveryHeadLit k && deliveryKeyIsOld cutoffYear k) := by
  unfold evictScrapeAndDeliveryCacheOlderThanYear keysWithHead
  rw [List.flatten_append, delBatchLoop_flatten, delBatchLoop_flatten]
  simp only [List.nil_append, List.filter_filter]
  rw [filter_and_comm (scrapeKeyIsOld cutoffYear) (hasHead scrapeHeadLit),
    filter_and_comm (deliveryKeyIsOld cutoffYear) (hasHead deliveryHeadLit)]

theorem evictRemaining_characterization (keys : List Str) (cutoffYear : Int) :
    evictRemainingKeys keys cutoffYear =
      keys.filter (fun k => !shouldEvict cutoffYear k) := by
  unfold evictRemainingKeys
  apply List.filter_congr
  intro k hk
  have hdel := evict_deleted_eq keys cutoffYear
  congr 1
  rw [Bool.eq_iff_iff]
  rw [contains_iff_mem]
  rw [hdel]
  simp only [List.mem_append, List.mem_filter, shouldEvict, Bool.or_eq_true]
  constructor
  · rintro (⟨_, h⟩ | ⟨_, h⟩)
    · exact Or.inl h
    · exact Or.inr h
  · rintro (h | h)
    · exact Or.inl ⟨hk, h⟩
    · exact Or.inr ⟨hk, h⟩

/-! ### Lemmas about parsed weights -/

theorem decimalVal?_nonneg (s : Str) (q : ℚ) (h : decimalVal? s = some q) : 0 ≤ q := by
  simp only [decimalVal?] at h
  split at h
  · split at h
    · exact absurd h (by simp)
    · simp only [Option.some.injEq] at h
      rw [← h]
      positivity
  · split at h
    · exact absurd h (by simp)
    · simp only [Option.some.injEq] at h
      rw [← h]
      positivity

theorem not_ws_of_digitOrDot (c : Char) (h : isDigitOrDot c = true) :
    isWsChar c = false := by
  simp only [isDigitOrDot, Bool.or_eq_true, decide_eq_true_eq] at h
  rcases h with h | h
  · exact not_ws_of_digit c h
  · rw [h]; decide

theorem parseFloatJS_token_nonneg (tok : Str) (hne : tok ≠ [])
    (htok : ∀ c ∈ tok, isDigitOrDot c = true) (q : ℚ)
    (h : parseFloatJS tok = some q) : 0 ≤ q := by
  obtain ⟨c, t, rfl⟩ : ∃ c t, tok = c :: t := by
    cases tok with
    | nil => exact absurd rfl hne
    | cons c t => exact ⟨c, t, rfl⟩
  have hcd : isDigitOrDot c = true := htok c (List.mem_cons_self _ _)
  have hdw : (c :: t).dropWhile isWsChar = c :: t := by
    rw [List.dropWhile_cons, not_ws_of_digitOrDot c hcd]
    simp
  have hcm : c ≠ '-' := by rintro rfl; simp [isDigitOrDot] at hcd
  have hcp : c ≠ '+' := by rintro rfl; simp [isDigitOrDot] at hcd
  unfold parseFloatJS at h
  rw [hdw] at h
  simp only [if_neg hcm, if_neg hcp] at h
  exact decimalVal?_nonneg _ _ h

theorem firstRun_spec (p : Char → Bool) (s tok : Str) (h : firstRun p s = some tok) :
    tok ≠ [] ∧ ∀ c ∈ tok, p c = true := by
  induction s with
  | nil => exact absurd h (by simp [firstRun])
  | cons c t ih =>
    unfold firstRun at h
    by_cases hc : p c
    · rw [if_pos hc] at h
      simp only [Option.some.injEq] at h
      rw [← h]
      refine ⟨by simp, ?_⟩
      intro x hx
      rcases List.mem_cons.mp hx with hx | hx
      · rw [hx]; exact hc
      · exact List.mem_takeWhile_imp hx
    · rw [if_neg hc] at h
      exact ih h

/-- The disjunction every extracted weight satisfies before the zero filter. -/
def WeightOk (w : JsWeight) : Prop :=
  w = JsWeight.pf ∨ w = JsWeight.num none ∨
    ∃ q, w = JsWeight.num (some q) ∧ 0 ≤ q

theorem tokenWeight_ok (s : Str) :
    WeightOk (match firstNumDotToken s with
      | some tok => JsWeight.num (parseFloatJS tok)
      | none => JsWeight.num (some 0)) := by
  cases h : firstNumDotToken s with
  | none => exact Or.inr (Or.inr ⟨0, rfl, le_refl 0⟩)
  | some tok =>
    obtain ⟨hne, hall⟩ := firstRun_spec isDigitOrDot s tok h
    show WeightOk (JsWeight.num (parseFloatJS tok))
    cases hq : parseFloatJS tok with
    | none => exact Or.inr (Or.inl rfl)
    | some q =>
      exact Or.inr (Or.inr ⟨q, rfl, parseFloatJS_token_nonneg tok hne hall q hq⟩)

theorem weightHeuristic_ok (textCells : List Str) :
    WeightOk (weightHeuristic textCells) := by
  unfold weightHeuristic
  split
  · exact Or.inl rfl
  · split
    · exact tokenWeight_ok _
    · exact Or.inr (Or.inr ⟨0, rfl, le_refl 0⟩)

theorem extractWeight_ok (roles : ColumnRoles) (r : UqRow) :
    WeightOk (extractWeight roles r) := by
  unfold extractWeight
  split
  · dsimp only
    split
    · split
      · exact Or.inl rfl
      · exact tokenWeight_ok _
    · exact weightHeuristic_ok _
  · exact weightHeuristic_ok _

theorem parseUqRow_spec (roles : ColumnRoles) (r : UqRow) (it : AssessmentItem)
    (h : parseUqRow roles r = some it) :
    (it.weight = JsWeight.pf ∨ it.weight = JsWeight.num none ∨
      ∃ q, it.weight = JsWeight.num (some q) ∧ 0 < q) ∧
    (it.isHurdle = false → it.hurdleThreshold = none) ∧
    it.hurdleRequirements = none := by
  simp only [parseUqRow] at h
  split at h
  · exact absurd h (by simp)
  · split at h
    · exact absurd h (by simp)
    · rename_i hguard
      simp only [Option.some.injEq] at h
      have hw := extractWeight_ok roles r
      rw [← h]
      refine ⟨?_, ?_, rfl⟩
      · simp only
        rcases hw with hw | hw | ⟨q, hq, hq0⟩
        · exact Or.inl hw
        · exact Or.inr (Or.inl hw)
        · rcases eq_or_lt_of_le hq0 with h0 | h0
          · exfalso
            apply hguard
            rw [← h0] at hq
            simp [hq]
          · exact Or.inr (Or.inr ⟨q, hq, h0⟩)
      · intro hflag
        simp only at hflag
        simp only [hflag]
        simp

/-! ### Lemmas about the mining pass and the extraction pipelines -/

theorem mineAllItems_fields (els : List DetailEl) (items : List AssessmentItem) :
    ∀ x ∈ mineAllItems els items, ∃ it ∈ items,
      x.weight = it.weight ∧ x.isHurdle = it.isHurdle ∧
      x.hurdleThreshold = it.hurdleThreshold := by
  intro x hx
  unfold mineAllItems at hx
  rcases List.mem_map.mp hx with ⟨p, hp, hfx⟩
  refine ⟨p.2, ?_, ?_⟩
  · have := List.mem_map_of_mem Prod.snd hp
    rw [List.enum_map_snd] at this
    exact this
  · rw [← hfx]
    exact ⟨rfl, rfl, rfl⟩

theorem uqExtractItems_ok (t : UqTable) (els : List DetailEl)
    (items : List AssessmentItem) (h : uqExtractItems t els = Except.ok items) :
    ∀ x ∈ items, ∃ r it,
      parseUqRow (resolveColumnRoles (headerCellTexts t)) r = some it ∧
      x.weight = it.weight ∧ x.isHurdle = it.isHurdle ∧
      x.hurdleThreshold = it.hurdleThreshold := by
  intro x hx
  simp only [uqExtractItems] at h
  split at h
  · exact absurd h (by simp)
  · simp only [Except.ok.injEq] at h
    rw [← h] at hx
    obtain ⟨it, hit, hfields⟩ := mineAllItems_fields _ _ x hx
    unfold parseUqRows at hit
    rcases List.mem_filterMap.mp hit with ⟨r, _, hr⟩
    exact ⟨r, it, hr, hfields⟩

theorem uqExtractItems_ok_ne_nil (t : UqTable) (els : List DetailEl)
    (items : List AssessmentItem) (h : uqExtractItems t els = Except.ok items) :
    items ≠ [] := by
  simp only [uqExtractItems] at h
  split at h
  · exact absurd h (by simp)
  · rename_i hne
    simp only [Except.ok.injEq] at h
    rw [← h]
    intro hnil
    rw [hnil] at hne
    simp at hne

theorem uqExtractItems_empty_rows (t : UqTable) (els : List DetailEl)
    (h : parseUqRows (resolveColumnRoles (headerCellTexts t)) t = []) :
    uqExtractItems t els = Except.error noItemsMsgLit := by
  simp only [uqExtractItems]
  rw [h]
  rfl

theorem qutParseTask_weight (t : QutTask) (it : QutItem)
    (h : qutParseTask t = some it) :
    it.weight = JsWeight.pf ∨ ∃ q, it.weight = JsWeight.num (some q) ∧ 0 < q := by
  simp only [qutParseTask] at h
  split at h
  · exact absurd h (by simp)
  · split at h
    · simp only [Option.some.injEq] at h
      rw [← h]
      exact Or.inl rfl
    · rename_i q hw
      split at h
      · simp only [Option.some.injEq] at h
        rw [← h]
        rename_i hq
        exact Or.inr ⟨q, rfl, hq⟩
      · exact absurd h (by simp)
    · exact absurd h (by simp)

theorem qutMainLoop_weights (P : QutItem → Prop)
    (hP : ∀ t it, qutParseTask t = some it → P it) :
    ∀ (ts : List QutTask) (acc : List QutItem), (∀ it ∈ acc, P it) →
      ∀ it ∈ qutMainLoop ts acc, P it := by
  intro ts
  induction ts with
  | nil => intro acc hacc it hit; exact hacc it hit
  | cons t rest ih =>
    intro acc hacc it hit
    unfold qutMainLoop at hit
    cases hpt : qutParseTask t with
    | none =>
      rw [hpt] at hit
      exact ih acc hacc it hit
    | some newIt =>
      rw [hpt] at hit
      have hit2 : it ∈ (if (acc.any fun e =>
          e.name == newIt.name && e.weight == newIt.weight) = true then
          qutMainLoop rest acc else qutMainLoop rest (acc ++ [newIt])) := hit
      by_cases hdup :
          (acc.any fun e => e.name == newIt.name && e.weight == newIt.weight) = true
      · rw [if_pos hdup] at hit2
        exact ih acc hacc it hit2
      · rw [if_neg hdup] at hit2
        refine ih _ ?_ it hit2
        intro x hx
        rcases List.mem_append.mp hx with hx | hx
        · exact hacc x hx
        · rw [List.mem_singleton.mp hx]
          exact hP t newIt hpt

theorem qutFallbackItems_weights (doc : List QutTask) :
    ∀ it ∈ qutFallbackItems doc,
      ∃ q, it.weight = JsWeight.num (some q) ∧ 0 < q := by
  intro it hit
  unfold qutFallbackItems at hit
  rcases List.mem_filterMap.mp hit with ⟨t, _, ht⟩
  simp only [qutFallbackItemOf] at ht
  split at ht
  · exact absurd ht (by simp)
  · split at ht
    · rename_i hcond
      simp only [Option.some.injEq] at ht
      rw [← ht]
      refine ⟨_, rfl, ?_⟩
      simp only [Bool.and_eq_true, decide_eq_true_eq] at hcond
      exact hcond.2
    · exact absurd ht (by simp)

theorem fetchQUT_ok_weights (code : Str) (sel : Option SemesterSelection)
    (doc : List QutTask) (items : List QutItem)
    (h : (fetchQUTCourseAssessment code sel doc).1 = Except.ok items) :
    ∀ it ∈ items, it.weight = JsWeight.pf ∨
      ∃ q, it.weight = JsWeight.num (some q) ∧ 0 < q := by
  cases sel with
  | none => exact absurd h (by simp [fetchQUTCourseAssessment])
  | some s =>
    simp only [fetchQUTCourseAssessment] at h
    by_cases hmain : (qutMainItems doc).isEmpty
    · rw [if_pos hmain] at h
      by_cases hfb : (qutFallbackItems doc).isEmpty
      · rw [if_pos hfb] at h
        exact absurd h (by simp)
      · rw [if_neg hfb] at h
        simp only [Except.ok.injEq] at h
        rw [← h]
        intro it hit
        obtain ⟨q, hq, h0⟩ := qutFallbackItems_weights doc it hit
        exact Or.inr ⟨q, hq, h0⟩
    · rw [if_neg hmain] at h
      rw [if_neg hmain] at h
      simp only [Except.ok.injEq] at h
      rw [← h]
      intro it hit
      exact qutMainLoop_weights _
        (fun t x hx => qutParseTask_weight t x hx) doc [] (by simp) it hit

theorem fetchQUT_ok_ne_nil (code : Str) (sel : Option SemesterSelection)
    (doc : List QutTask) (items : List QutItem)
    (h : (fetchQUTCourseAssessment code sel doc).1 = Except.ok items) :
    items ≠ [] := by
  cases sel with
  | none => exact absurd h (by simp [fetchQUTCourseAssessment])
  | some s =>
    simp only [fetchQUTCourseAssessment] at h
    by_cases hmain : (qutMainItems doc).isEmpty
    · rw [if_pos hmain] at h
      by_cases hfb : (qutFallbackItems doc).isEmpty
      · rw [if_pos hfb] at h
        exact absurd h (by simp)
      · rw [if_neg hfb] at h
        simp only [Except.ok.injEq] at h
        rw [← h]
        exact List.isEmpty_eq_false.mp (Bool.eq_false_iff.mpr hfb)
    · rw [if_neg hmain] at h
      rw [if_neg hmain] at h
      simp only [Except.ok.injEq] at h
      rw [← h]
      exact List.isEmpty_eq_false.mp (Bool.eq_false_iff.mpr hmain)

theorem fetchQUT_empty_error (code : Str) (s : SemesterSelection)
    (doc : List QutTask) (hmain : qutMainItems doc = [])
    (hfb : qutFallbackItems doc = []) :
    (fetchQUTCourseAssessment code (some s) doc).1 =
      Except.error (qutNoItemsMsg code s) := by
  unfold fetchQUTCourseAssessment
  simp [hmain, hfb]

/-! ### Lemmas characterising role resolution and the fallback loop -/

theorem resolveRoles_foldl (l : List (Nat × Str)) : ∀ (r : ColumnRoles),
    l.foldl (fun r p => resolveRolesStep r p.1 p.2) r =
      { nameCol := lastMatchIdxFrom headerNameKw l r.nameCol,
        weightCol := lastMatchIdxFrom
          (fun t => !headerNameKw t && headerWeightKw t) l r.weightCol,
        dueCol := lastMatchIdxFrom
          (fun t => !headerNameKw t && !headerWeightKw t && headerDueKw t)
          l r.dueCol } := by
  induction l with
  | nil => intro r; rfl
  | cons p rest ih =>
    intro r
    rw [List.foldl_cons, ih]
    by_cases h1 : headerNameKw p.2
    · simp [resolveRolesStep, lastMatchIdxFrom, h1]
    · by_cases h2 : headerWeightKw p.2
      · simp [resolveRolesStep, lastMatchIdxFrom, h1, h2]
      · by_cases h3 : headerDueKw p.2
        · simp [resolveRolesStep, lastMatchIdxFrom, h1, h2, h3]
        · simp [resolveRolesStep, lastMatchIdxFrom, h1, h2, h3]

theorem fallbackSearchLoop_eq : ∀ (ts : List UqTable) (i : Nat),
    fallbackSearchLoop ts i =
      (ts.findIdx? (fun t => headerKeywordMatch t || percentShapeMatch t)).map
        (fun j => j + i) := by
  intro ts
  induction ts with
  | nil => intro i; rfl
  | cons t rest ih =>
    intro i
    unfold fallbackSearchLoop
    rw [List.findIdx?_cons]
    by_cases h1 : headerKeywordMatch t
    · simp [h1]
    · by_cases h2 : percentShapeMatch t
      · simp [h1, h2]
      · cases hf : rest.findIdx? (fun t => headerKeywordMatch t || percentShapeMatch t) with
        | none => simp [h1, h2, ih (i + 1), hf]
        | some j =>
          simp [h1, h2, ih (i + 1), hf]
          omega

/-! ### Claim theorems -/

/-- Claim C1 (confirmed).  Key formats as the code derives them: with a full
selector the scrape route derives
`scrape:{institution}:{COURSECODE}:{year}:{semesterToken}:{delivery}` (through
the five-argument `scrapeCacheKey` call of route.ts, modelled from the spec as
`scrapeCacheKeyInst`), with no selector it derives
`scrape:{institution}:{COURSECODE}`, and delivery-mode lookups use
`delivery:{institution}:{COURSECODE}:{year}:{semesterToken}` (through the
four-argument `deliveryCacheKey` call of the university-aware delivery route,
modelled from the spec as `deliveryCacheKeyInst`); the semester token has its
whitespace runs replaced by underscores. -/
theorem cacheKey_institution_segments (inst c : Str) (y : Nat) (s d : Str)
    (hinst : ':' ∉ inst) (hc : ':' ∉ c) (hs : ':' ∉ s) (hd : ':' ∉ d) :
    splitOnColon (routeScrapeCacheKey inst c (some ((y : Int), s, d))) =
      [scrapeWordLit, inst, c, natChars y, normalizeSemester s, d] ∧
    splitOnColon (routeScrapeCacheKey inst c none) = [scrapeWordLit, inst, c] ∧
    splitOnColon (deliveryCacheKeyInst c (y : Int) s inst) =
      [deliveryWordLit, inst, c, natChars y, normalizeSemester s] := by
  have hny : ':' ∉ natChars y := no_colon_natChars y
  have ht : ':' ∉ normalizeSemester s := by
    intro hmem
    rcases mem_normalizeSemester s _ hmem with h | h
    · exact absurd h (by decide)
    · exact hs h
  have hw : ':' ∉ scrapeWordLit := by decide
  refine ⟨?_, ?_, splitOnColon_deliveryCacheKeyInst c y s inst hinst hc hs⟩
  · rw [routeScrapeCacheKey_some_decomp, splitOnColon_append _ _ hw,
      splitOnColon_append _ _ hinst, splitOnColon_append _ _ hc,
      splitOnColon_append _ _ hny, splitOnColon_append _ _ ht,
      splitOnColon_no_colon _ hd]
  · rw [show routeScrapeCacheKey inst c none =
        scrapeWordLit ++ ':' :: (inst ++ ':' :: c) by
      unfold routeScrapeCacheKey
      rw [show scrapeHeadLit = scrapeWordLit ++ [':'] from rfl]
      simp [List.append_assoc]]
    rw [splitOnColon_append _ _ hw, splitOnColon_append _ _ hinst,
      splitOnColon_no_colon _ hc]

/-- Witness for C1 at institution `uq`, course MATH1051, Semester 1 2025. -/
theorem cacheKey_institution_segments_witness :
    (':' ∉ uqLit) ∧ (':' ∉ mathCourseLit) ∧ (':' ∉ semOneLit) ∧ (':' ∉ internalLit) ∧
    (splitOnColon (routeScrapeCacheKey uqLit mathCourseLit
        (some ((2025 : Int), semOneLit, internalLit))) =
      [scrapeWordLit, uqLit, mathCourseLit, natChars 2025,
        normalizeSemester semOneLit, internalLit] ∧
    splitOnColon (routeScrapeCacheKey uqLit mathCourseLit none) =
      [scrapeWordLit, uqLit, mathCourseLit] ∧
    splitOnColon (deliveryCacheKeyInst mathCourseLit (2025 : Int) semOneLit uqLit) =
      [deliveryWordLit, uqLit, mathCourseLit, natChars 2025,
        normalizeSemester semOneLit]) :=
  ⟨by decide, by decide, by decide, by decide,
    cacheKey_institution_segments uqLit mathCourseLit 2025 semOneLit internalLit
      (by decide) (by decide) (by decide) (by decide)⟩

/-- Claim C2 (corrected).  Every assessment item returned by either scraper
carries a weight that is the pass/fail marker, a parsed number strictly above
zero (with no enforced upper bound), or — in the UQ scraper — the `NaN` of a
malformed numeric token; an item with numeric weight exactly 0 is never
returned. -/
theorem assessment_weight_invariant :
    (∀ (t : UqTable) (els : List DetailEl) (items : List AssessmentItem),
      uqExtractItems t els = Except.ok items →
      ∀ it ∈ items, it.weight = JsWeight.pf ∨ it.weight = JsWeight.num none ∨
        ∃ q, it.weight = JsWeight.num (some q) ∧ 0 < q) ∧
    (∀ (code : Str) (sel : Option SemesterSelection) (doc : List QutTask)
        (items : List QutItem),
      (fetchQUTCourseAssessment code sel doc).1 = Except.ok items →
      ∀ it ∈ items, it.weight = JsWeight.pf ∨
        ∃ q, it.weight = JsWeight.num (some q) ∧ 0 < q) := by
  constructor
  · intro t els items h it hit
    obtain ⟨r, it0, hr, hw, _, _⟩ := uqExtractItems_ok t els items h it hit
    obtain ⟨hwk, _, _⟩ := parseUqRow_spec _ _ _ hr
    rw [hw]
    exact hwk
  · exact fetchQUT_ok_weights

/-- Counterexample to claim C2 as stated: a weight cell reading `150%` yields
a returned item of weight 150, strictly above the claimed bound of 100. -/
theorem assessment_weight_over100_cex :
    uqExtractItems overweightTable [] = Except.ok [overweightItem] ∧
    overweightItem.weight = JsWeight.num (some 150) ∧ ¬((150 : ℚ) ≤ 100) := by decide

/-- Witness for C2 on the 150% table and on a QUT demo outline. -/
theorem assessment_weight_invariant_witness :
    (uqExtractItems overweightTable [] = Except.ok [overweightItem] ∧
      (overweightItem.weight = JsWeight.pf ∨
        overweightItem.weight = JsWeight.num none ∨
        ∃ q, overweightItem.weight = JsWeight.num (some q) ∧ 0 < q)) ∧
    ((fetchQUTCourseAssessment qutUnitLit (some qutDemoSel) [qutDemoTask]).1 =
        Except.ok [qutDemoItem] ∧
      (qutDemoItem.weight = JsWeight.pf ∨
        ∃ q, qutDemoItem.weight = JsWeight.num (some q) ∧ 0 < q)) :=
  ⟨⟨by decide, assessment_weight_invariant.1 overweightTable [] [overweightItem]
      (by decide) overweightItem (by decide)⟩,
   ⟨by decide, assessment_weight_invariant.2 qutUnitLit (some qutDemoSel)
      [qutDemoTask] [qutDemoItem] (by decide) qutDemoItem (by decide)⟩⟩

/-- Claim C3 (corrected).  A hurdle threshold is only ever attached to an item
whose hurdle flag is set (the threshold scan runs under `if (isHurdle)`), but
hurdle-requirements text is attached by the mining pass to any item whose
detail section carries a `Hurdle requirements` subsection, without consulting
the flag. -/
theorem hurdle_threshold_implies_flag (t : UqTable) (els : List DetailEl)
    (items : List AssessmentItem) (h : uqExtractItems t els = Except.ok items) :
    ∀ it ∈ items, it.hurdleThreshold ≠ none → it.isHurdle = true := by
  intro it hit hthr
  obtain ⟨r, it0, hr, _, hh, ht⟩ := uqExtractItems_ok t els items h it hit
  obtain ⟨_, hflag, _⟩ := parseUqRow_spec _ _ _ hr
  rcases Bool.eq_false_or_eq_true it.isHurdle with htrue | hfalse
  · exact htrue
  · exfalso
    apply hthr
    rw [ht]
    exact hflag (by rw [← hh]; exact hfalse)

/-- Counterexample to claim C3 as stated: an item that is not hurdle-flagged
still receives hurdle-requirements text from the mining pass. -/
theorem hurdle_requirements_without_flag_cex :
    uqExtractItems hurdleCexTable hurdleCexDetails = Except.ok [hurdleCexItem] ∧
    hurdleCexItem.isHurdle = false ∧
    hurdleCexItem.hurdleRequirements = some hurdleCexBodyLit := by decide

/-- Witness for C3 on a hurdle-flagged row with a stated 80% threshold. -/
theorem hurdle_threshold_implies_flag_witness :
    uqExtractItems thresholdTable [] = Except.ok [thresholdItem] ∧
    thresholdItem.hurdleThreshold ≠ none ∧
    thresholdItem.isHurdle = true :=
  ⟨by decide, by decide,
    hurdle_threshold_implies_flag thresholdTable [] [thresholdItem]
      (by decide) thresholdItem (by decide) (by decide)⟩

/-- Claim C4 (confirmed).  A successful extraction of either scraper returns
at least one item; a located table (or QUT outline) whose rows produce no
valid items makes the pipeline fail with the explicit no-items-parsed error
rather than return an empty success. -/
theorem nonempty_success_or_error :
    (∀ (t : UqTable) (els : List DetailEl) (items : List AssessmentItem),
      uqExtractItems t els = Except.ok items → items ≠ []) ∧
    (∀ (t : UqTable) (els : List DetailEl),
      parseUqRows (resolveColumnRoles (headerCellTexts t)) t = [] →
      uqExtractItems t els = Except.error noItemsMsgLit) ∧
    (∀ (code : Str) (sel : Option SemesterSelection) (doc : List QutTask)
        (items : List QutItem),
      (fetchQUTCourseAssessment code sel doc).1 = Except.ok items → items ≠ []) ∧
    (∀ (code : Str) (s : SemesterSelection) (doc : List QutTask),
      qutMainItems doc = [] → qutFallbackItems doc = [] →
      (fetchQUTCourseAssessment code (some s) doc).1 =
        Except.error (qutNoItemsMsg code s)) :=
  ⟨uqExtractItems_ok_ne_nil, uqExtractItems_empty_rows,
   fetchQUT_ok_ne_nil, fetchQUT_empty_error⟩

/-- Witness for C4: a one-row table succeeds non-empty, a zero-row table
yields the no-items error, and likewise for the QUT pipeline. -/
theorem nonempty_success_or_error_witness :
    ([overweightItem] ≠ ([] : List AssessmentItem)) ∧
    uqExtractItems emptyRowsTable [] = Except.error noItemsMsgLit ∧
    ([qutDemoItem] ≠ ([] : List QutItem)) ∧
    (fetchQUTCourseAssessment qutUnitLit (some qutDemoSel) []).1 =
      Except.error (qutNoItemsMsg qutUnitLit qutDemoSel) :=
  ⟨nonempty_success_or_error.1 overweightTable [] [overweightItem] (by decide),
   nonempty_success_or_error.2.1 emptyRowsTable [] (by decide),
   nonempty_success_or_error.2.2.1 qutUnitLit (some qutDemoSel) [qutDemoTask]
     [qutDemoItem] (by decide),
   nonempty_success_or_error.2.2.2 qutUnitLit qutDemoSel [] (by decide) (by decide)⟩

/-- Claim C5 (confirmed).  Once `addFailedScrape` has recorded a key, a scrape
request deriving the same key that misses the value cache is answered with the
distinct temporarily-limited response, and the scraper (hence the document
fetch) is not invoked. -/
theorem failure_memo_short_circuit {α : Type} (st : RedisState α) (key : Str)
    (outcome : Except Str α) (hmiss : getCachedKey st key = none) :
    routeGetStep (addFailedScrape st key) key outcome =
      (ScrapeResponse.limited, false, addFailedScrape st key) := by
  have h1 : getCachedKey (addFailedScrape st key) key = none := by
    unfold addFailedScrape
    split
    · exact hmiss
    · exact hmiss
  have h2 : isFailedScrape (addFailedScrape st key) key = true := by
    unfold isFailedScrape addFailedScrape
    split
    · assumption
    · simp [List.contains_cons]
  unfold routeGetStep
  rw [h1, h2]
  simp

/-- Witness for C5 on an empty store and the MATH1051 key. -/
theorem failure_memo_short_circuit_witness :
    getCachedKey (RedisState.mk ([] : List (Str × Nat)) []) mathCourseLit = none ∧
    routeGetStep (addFailedScrape (RedisState.mk ([] : List (Str × Nat)) [])
        mathCourseLit) mathCourseLit (Except.ok 7) =
      (ScrapeResponse.limited, false,
        addFailedScrape (RedisState.mk ([] : List (Str × Nat)) []) mathCourseLit) :=
  ⟨rfl, failure_memo_short_circuit _ _ _ rfl⟩

/-- Claim C6 (confirmed).  The eviction pass deletes, in DEL batches of at
most `BATCH_SIZE` keys, exactly the `scrape:*` and `delivery:*` keys whose
embedded year parses and is strictly below the cutoff, leaving every other
key (including keys without a parseable year) untouched; the failure-memo
trim removes exactly the members whose year parses below the cutoff; and on
keys for years 2022-2025 with cutoff 2024 exactly the 2022 and 2023 keys go. -/
theorem eviction_exactly_old_years (keys members : List Str) (cutoffYear : Int) :
    (evictRemainingKeys keys cutoffYear =
      keys.filter (fun k => !shouldEvict cutoffYear k)) ∧
    (∀ b ∈ (evictScrapeAndDeliveryCacheOlderThanYear keys cutoffYear).1 ++
        (evictScrapeAndDeliveryCacheOlderThanYear keys cutoffYear).2,
      b.length ≤ BATCH_SIZE) ∧
    (trimFailedScrapesRemaining members cutoffYear =
      members.filter (fun k => !scrapeKeyIsOld cutoffYear k)) ∧
    (evictRemainingKeys demoYearKeys 2024 =
      [scrapeCacheKey mathCourseLit 2024 semOneLit internalLit,
       scrapeCacheKey mathCourseLit 2025 semOneLit internalLit,
       deliveryCacheKey mathCourseLit 2024 semOneLit,
       deliveryCacheKey mathCourseLit 2025 semOneLit]) ∧
    (trimFailedScrapesRemaining demoFailedMembers 2024 =
      [scrapeCacheKey mathCourseLit 2024 semOneLit internalLit,
       scrapeCacheKey mathCourseLit 2025 semOneLit internalLit]) := by
  refine ⟨evictRemaining_characterization keys cutoffYear, ?_, rfl, by decide, by decide⟩
  intro b hb
  rcases List.mem_append.mp hb with h | h
  · exact delBatchLoop_batch_bound _ _ [] (by decide) b h
  · exact delBatchLoop_batch_bound _ _ [] (by decide) b h

/-- Witness for C6: the four-year scenario evaluated through the theorem. -/
theorem eviction_exactly_old_years_witness :
    evictRemainingKeys demoYearKeys 2024 =
      [scrapeCacheKey mathCourseLit 2024 semOneLit internalLit,
       scrapeCacheKey mathCourseLit 2025 semOneLit internalLit,
       deliveryCacheKey mathCourseLit 2024 semOneLit,
       deliveryCacheKey mathCourseLit 2025 semOneLit] :=
  (eviction_exactly_old_years [] [] 0).2.2.2.1

/-- Claim C7 (corrected).  Parsing a derived scrape key and re-deriving a key
from the parsed fields reproduces the key for every well-formed key whose
course, semester and delivery segments are colon-free and whose normalized
semester token has no two consecutive underscores; the underscore decoding is
not injective in general, so the round-trip fails beyond that fragment. -/
theorem scrapeKey_parse_rederive_roundtrip (c : Str) (y : Nat) (s d : Str)
    (hc : ':' ∉ c) (hs : ':' ∉ s) (hd : ':' ∉ d)
    (hdu : noDoubleUnderscore (normalizeSemester s) = true) :
    parseScrapeCacheKey (scrapeCacheKey c (y : Int) s d) =
      some { courseCode := c, year := some (y : Int),
             semester := some (underscoresToSpaces (normalizeSemester s)),
             delivery := some d } ∧
    scrapeCacheKey c (y : Int) (underscoresToSpaces (normalizeSemester s)) d =
      scrapeCacheKey c (y : Int) s d := by
  constructor
  · unfold parseScrapeCacheKey
    rw [hasHead_scrapeCacheKey, splitOnColon_scrapeCacheKey c y s d hc hs hd]
    simp only [List.length_cons, List.length_nil, if_true]
    norm_num
    rw [parseIntJS_natChars]
  · unfold scrapeCacheKey
    rw [normalize_underscoresToSpaces _ (normalizeSemester_no_ws s) hdu]

/-- Counterexample to claim C7 as stated: the semester string `a_ b`
normalizes to the token `a__b`, whose key parses back to semester `a  b` and
re-derives to a key with token `a_b`, different from the original key. -/
theorem scrapeKey_roundtrip_underscore_cex :
    parseScrapeCacheKey (scrapeCacheKey mathCourseLit 2025 cexSemLit internalLit) =
      some { courseCode := mathCourseLit, year := some 2025,
             semester := some cexSemParsedLit, delivery := some internalLit } ∧
    scrapeCacheKey mathCourseLit 2025 cexSemParsedLit internalLit ≠
      scrapeCacheKey mathCourseLit 2025 cexSemLit internalLit := by decide

/-- Witness for C7 on the MATH1051 Semester 1 2025 internal key. -/
theorem scrapeKey_parse_rederive_roundtrip_witness :
    (':' ∉ mathCourseLit) ∧ (':' ∉ semOneLit) ∧ (':' ∉ internalLit) ∧
    (noDoubleUnderscore (normalizeSemester semOneLit) = true) ∧
    (parseScrapeCacheKey (scrapeCacheKey mathCourseLit (2025 : Int) semOneLit
        internalLit) =
      some { courseCode := mathCourseLit, year := some (2025 : Int),
             semester := some (underscoresToSpaces (normalizeSemester semOneLit)),
             delivery := some internalLit } ∧
    scrapeCacheKey mathCourseLit (2025 : Int)
        (underscoresToSpaces (normalizeSemester semOneLit)) internalLit =
      scrapeCacheKey mathCourseLit (2025 : Int) semOneLit internalLit) :=
  ⟨by decide, by decide, by decide, by decide,
    scrapeKey_parse_rederive_roundtrip mathCourseLit 2025 semOneLit internalLit
      (by decide) (by decide) (by decide) (by decide)⟩

/-- Claim C8 (corrected).  Each header cell is tested against at most one role
with the per-cell priority name, then weight, then due — but the loop assigns
without checking whether the role already has an index, so the LAST matching
header cell in row order wins each role, displacing earlier matches. -/
theorem column_roles_last_match_wins (cells : List Str) :
    resolveColumnRoles cells =
      { nameCol := lastMatchIdxFrom headerNameKw cells.enum none,
        weightCol := lastMatchIdxFrom
          (fun t => !headerNameKw t && headerWeightKw t) cells.enum none,
        dueCol := lastMatchIdxFrom
          (fun t => !headerNameKw t && !headerWeightKw t && headerDueKw t)
          cells.enum none } :=
  resolveRoles_foldl cells.enum {}

/-- Counterexample to claim C8 as stated: with headers `Assessment task`,
`Weight`, `Assessment due`, the later third cell displaces the first from the
name role (and, having matched name, is not assigned due), so the name column
is 2, not the first-match 0. -/
theorem column_roles_first_match_cex :
    resolveColumnRoles cexHeaderCells =
      { nameCol := some 2, weightCol := some 1, dueCol := none } ∧
    (some 2 : Option Nat) ≠ some 0 := by decide

/-- Claim C9 (corrected).  When the heading-adjacency stage yields no table
the pipeline always fails with the could-not-locate error: the guard after
the fallback loop re-tests the stale pre-fallback reference, discarding the
fallback result.  The fallback loop itself, whose selection is thus unused,
qualifies a table if its headers contain assessment/item AND (weight/percent
OR due/date), or else — interleaved, for that same table — if one of its
first three rows has a percent-numeric cell; first qualifying table wins. -/
theorem fallback_table_search_behavior :
    (∀ (i : Nat) (tables : List UqTable),
      locateAssessmentTable (some i) tables = Except.ok i) ∧
    (∀ tables : List UqTable,
      locateAssessmentTable none tables = Except.error noTableMsgLit) ∧
    (∀ tables : List UqTable, fallbackAssessmentTable tables =
      tables.findIdx? (fun t => headerKeywordMatch t || percentShapeMatch t)) := by
  refine ⟨fun i tables => rfl, fun tables => rfl, fun tables => ?_⟩
  unfold fallbackAssessmentTable
  rw [fallbackSearchLoop_eq]
  simp

/-- Counterexample to claim C9 as stated: with a keyword-free percent table
before a header-matching table, the loop selects the percent table (index 0)
where the claimed policy selects index 1 — and in any case the pipeline
throws when stage one found nothing, even though a table qualifies. -/
theorem fallback_table_search_cex :
    fallbackAssessmentTable [pctOnlyTable, keywordHdrTable] = some 0 ∧
    specFallbackTable [pctOnlyTable, keywordHdrTable] = some 1 ∧
    locateAssessmentTable none [keywordHdrTable] =
      Except.error noTableMsgLit := by decide

/-- Claim C10 (confirmed).  Called without a semester selection, the QUT
scraper throws the explicit selector-required error before any document fetch
is attempted (the fetched flag is false), for every unit code and document. -/
theorem qut_requires_semester_selection (code : Str) (doc : List QutTask) :
    fetchQUTCourseAssessment code none doc =
      (Except.error qutNoSemesterMsgLit, false) := rfl

end UqGrades
